import Mathlib

/-! # Verification development for `blackieops/argon2`

A shallow embedding of `argon2.go` (package `argon2`): the digest record, its
encoder `String`, its decoder `NewFromEncoded`, digest generation and
comparison, together with the parts of the Go standard library the code calls
(`strings.Split`, `fmt.Sprintf`, `fmt.Sscanf`, `encoding/base64`,
`crypto/subtle`).

Conventions:
* a Go `[]byte` and a Go `string` are both lists of bytes (`List Byte`);
* `uint32`/`uint8` fields are natural numbers, conversions to a machine width
  are written with an explicit `% 2 ^ w`;
* functions that return `(value, error)` return `Except Error value`, and the
  base64 decoder, whose only error is `CorruptInputError`, returns an `Option`;
* a method with a pointer receiver returns the record after the call next to
  its result;
* `int` has 64 bits;
* the Argon2id primitive `argon2.IDKey` and the entropy source
  `crypto/rand.Read` are external and are parameters of the model.
-/

set_option autoImplicit false

namespace Argon2

/-! ## Bytes and strings -/

/-- A Go `byte` (`uint8`). -/
abbrev Byte := Fin 256

/-- The Go conversion `byte(n)`: truncation to eight bits. -/
def byte (n : Nat) : Byte := ⟨n % 256, Nat.mod_lt n (by decide)⟩

/-- A Go `string`: an immutable sequence of bytes. -/
abbrev GoString := List Byte

/-- The bytes of an ASCII string literal of the source. -/
def str (s : String) : GoString := s.toList.map (fun c => byte c.toNat)

/-- The Go conversion `[]byte(s)`: the bytes of the string. -/
def toBytes (s : GoString) : List Byte := s

/-! ## Errors -/

/-- Errors produced inside `fmt.Sscanf`. -/
inductive ScanError where
  /-- The value `io.ErrUnexpectedEOF`: input ended inside literal text. -/
  | unexpectedEOF
  /-- The value `io.EOF`: input ended where a number had to start. -/
  | eof
  /-- The text "input does not match format". -/
  | noMatch
  /-- The text "unexpected newline". -/
  | unexpectedNewline
  /-- The text "expected integer". -/
  | expectedInteger
  /-- The `strconv.ErrRange` failure of `ParseInt`/`ParseUint` (64 bits). -/
  | range
  /-- The text "integer overflow on token ..." (value too wide for the operand). -/
  | overflow
  /-- The text "too many operands". -/
  | tooManyOperands
  /-- The text "too few operands for format ...". -/
  | tooFewOperands
  /-- The text "missing verb: % at end of format string". -/
  | missingVerb
  /-- The text "bad verb ... for integer". -/
  | badVerb
  deriving DecidableEq, Repr

/-- The error values `NewFromEncoded` and `GenerateDigest` can return. -/
inductive Error where
  /-- The package variable `ErrInvalidHash`. -/
  | ErrInvalidHash
  /-- The package variable `ErrIncompatibleVersion`. -/
  | ErrIncompatibleVersion
  /-- An error propagated from `fmt.Sscanf`. -/
  | scan (e : ScanError)
  /-- A `base64.CorruptInputError` (the byte offset it carries is not modelled). -/
  | corruptInput
  /-- An error propagated from `crypto/rand.Read`. -/
  | randomSource (code : Nat)
  deriving DecidableEq, Repr

deriving instance DecidableEq for Except

/-! ## `strings.Split` -/

/-- The byte `'$'`. -/
def dollar : Byte := 36

/-- The call `strings.Split(s, sep)` for a one-byte separator: the substrings
between the separators, always at least one. -/
def Split (sep : Byte) : GoString → List GoString
  | [] => [[]]
  | c :: cs =>
    if c = sep then [] :: Split sep cs
    else
      match Split sep cs with
      | [] => [[c]]
      | seg :: segs => (c :: seg) :: segs

/-! ## `encoding/base64`, `RawStdEncoding` -/

/-- The standard alphabet `encodeStd`:
`ABCDEFGHIJKLMNOPQRSTUVWXYZabcdefghijklmnopqrstuvwxyz0123456789+/`,
as a map from a six-bit value to its character. -/
def encodeStd (i : Nat) : Byte :=
  if i < 26 then byte (65 + i)
  else if i < 52 then byte (97 + (i - 26))
  else if i < 62 then byte (48 + (i - 52))
  else if i = 62 then 43
  else 47

/-- The table `decodeMap` of the standard alphabet: the six-bit value of a
character, `0xff` for a byte outside the alphabet. -/
def decodeMap (c : Byte) : Nat :=
  if 65 ≤ c.val ∧ c.val ≤ 90 then c.val - 65
  else if 97 ≤ c.val ∧ c.val ≤ 122 then c.val - 97 + 26
  else if 48 ≤ c.val ∧ c.val ≤ 57 then c.val - 48 + 52
  else if c.val = 43 then 62
  else if c.val = 47 then 63
  else 255

/-- The method `RawStdEncoding.EncodeToString`: three bytes become four
characters; a final group of one or two bytes becomes two or three characters;
no padding is written. -/
def b64Encode : List Byte → GoString
  | [] => []
  | [a] =>
    let val := a.val * 65536
    [encodeStd (val / 262144 % 64), encodeStd (val / 4096 % 64)]
  | [a, b] =>
    let val := a.val * 65536 + b.val * 256
    [encodeStd (val / 262144 % 64), encodeStd (val / 4096 % 64), encodeStd (val / 64 % 64)]
  | a :: b :: c :: rest =>
    let val := a.val * 65536 + b.val * 256 + c.val
    encodeStd (val / 262144 % 64) :: encodeStd (val / 4096 % 64) ::
      encodeStd (val / 64 % 64) :: encodeStd (val % 64) :: b64Encode rest

/-- The end of `decodeQuantum`: turn the `dlen` six-bit values collected in
`dbuf` into `dlen - 1` bytes; in strict mode the unused trailing bits must be
zero. A quantum of one character is an error. `none` stands for the
`CorruptInputError` of the package (the byte offset it carries is not
modelled). -/
def finishQuantum (dbuf : List Nat) : Option (List Byte) :=
  match dbuf with
  | [] => some []
  | [_] => none
  | [d0, d1] =>
    let val := d0 * 262144 + d1 * 4096
    if val / 256 % 256 ≠ 0 ∨ val % 256 ≠ 0 then none
    else some [byte (val / 65536)]
  | [d0, d1, d2] =>
    let val := d0 * 262144 + d1 * 4096 + d2 * 64
    if val % 256 ≠ 0 then none
    else some [byte (val / 65536), byte (val / 256)]
  | d0 :: d1 :: d2 :: d3 :: _ =>
    let val := d0 * 262144 + d1 * 4096 + d2 * 64 + d3
    some [byte (val / 65536), byte (val / 256), byte val]

/-- The loop of `Encoding.Decode` over `decodeQuantum` for the strict unpadded
standard encoding: `dbuf` holds the six-bit values of the quantum being read.
Bytes `'\r'` and `'\n'` are skipped, any other byte outside the alphabet
(including `'='`, since there is no padding character) is corrupt input. -/
def b64DecodeLoop : GoString → List Nat → Option (List Byte)
  | [], dbuf => finishQuantum dbuf
  | c :: cs, dbuf =>
    if decodeMap c ≠ 255 then
      if dbuf.length = 3 then
        match finishQuantum (dbuf ++ [decodeMap c]) with
        | none => none
        | some out =>
          match b64DecodeLoop cs [] with
          | none => none
          | some more => some (out ++ more)
      else b64DecodeLoop cs (dbuf ++ [decodeMap c])
    else if c.val = 10 ∨ c.val = 13 then b64DecodeLoop cs dbuf
    else none

/-- The call `base64.RawStdEncoding.Strict().DecodeString(s)`; `none` is a
`CorruptInputError`. -/
def b64Decode (s : GoString) : Option (List Byte) := b64DecodeLoop s []

/-! ## `fmt.Sprintf` -/

/-- An operand of `fmt.Sprintf`. -/
inductive Arg where
  /-- An integer operand (`int`, `uint32`, `uint8`). -/
  | int (v : Int)
  /-- A string operand. -/
  | string (s : GoString)

/-- The verb `%d` on a non-negative integer: its decimal digits, most
significant first, `"0"` for zero. -/
def decimal (n : Nat) : GoString :=
  if n = 0 then [48] else (Nat.digits 10 n).reverse.map (fun d => byte (48 + d))

/-- The verb `%d` on an integer: a minus sign for a negative value, then the
decimal digits of its magnitude. -/
def decimalInt (v : Int) : GoString :=
  if v < 0 then 45 :: decimal v.natAbs else decimal v.natAbs

/-- One verb of `fmt.Sprintf` applied to its operand. Only `%d` on an integer
and `%s` on a string occur in the source; any other pairing prints the
`%!verb(...)` marker of `fmt`, abbreviated here to `%!` and the verb. -/
def formatVerb (verb : Byte) (a : Arg) : GoString :=
  match a with
  | .int v => if verb = 100 then decimalInt v else [37, 33, verb]
  | .string s => if verb = 115 then s else [37, 33, verb]

/-- The call `fmt.Sprintf(format, args...)` for formats made of literal text and
two-byte verbs: a `%` consumes the next byte as the verb and the next operand;
every other byte is copied. A verb without operand prints `%!` and the verb. -/
def Sprintf : GoString → List Arg → GoString
  | [], _ => []
  | [c], _ => [c]
  | c :: v :: rest, args =>
    if c = 37 then
      match args with
      | [] => 37 :: 33 :: v :: Sprintf rest []
      | a :: more => formatVerb v a ++ Sprintf rest more
    else c :: Sprintf (v :: rest) args

/-! ## `fmt.Sscanf` -/

/-- The limit `hugeWid` of `fmt`: a scan reads at most this many runes. -/
def hugeWid : Nat := 2 ^ 30

/-- The rune `utf8.RuneError`. -/
def RuneError : Nat := 65533

/-- The function `utf8.DecodeRune`: the first rune of `p` and its width in
bytes; an invalid or truncated encoding gives `(RuneError, 1)`. -/
def DecodeRune (p : List Byte) : Nat × Nat :=
  match p with
  | [] => (RuneError, 0)
  | p0 :: t =>
    if p0.val < 128 then (p0.val, 1)
    else if p0.val < 194 ∨ 244 < p0.val then (RuneError, 1)
    else
      let sz := if p0.val < 224 then 2 else if p0.val < 240 then 3 else 4
      let lo := if p0.val = 224 then 160 else if p0.val = 240 then 144 else 128
      let hi := if p0.val = 237 then 159 else if p0.val = 244 then 143 else 191
      match t with
      | [] => (RuneError, 1)
      | b1 :: t1 =>
        if b1.val < lo ∨ hi < b1.val then (RuneError, 1)
        else if sz = 2 then (p0.val % 32 * 64 + b1.val % 64, 2)
        else
          match t1 with
          | [] => (RuneError, 1)
          | b2 :: t2 =>
            if b2.val < 128 ∨ 191 < b2.val then (RuneError, 1)
            else if sz = 3 then (p0.val % 16 * 4096 + b1.val % 64 * 64 + b2.val % 64, 3)
            else
              match t2 with
              | [] => (RuneError, 1)
              | b3 :: _ =>
                if b3.val < 128 ∨ 191 < b3.val then (RuneError, 1)
                else (p0.val % 8 * 262144 + b1.val % 64 * 4096 + b2.val % 64 * 64
                        + b3.val % 64, 4)

/-- The runes `ReadRune` delivers for the input: `DecodeRune` applied until the
input is used up. `skip` counts the bytes that still belong to the rune decoded
last. -/
def decodeRunesAux : List Byte → Nat → List Nat
  | [], _ => []
  | _ :: t, skip + 1 => decodeRunesAux t skip
  | p0 :: t, 0 => (DecodeRune (p0 :: t)).1 :: decodeRunesAux t ((DecodeRune (p0 :: t)).2 - 1)

/-- The rune sequence of a string. -/
def decodeRunes (s : GoString) : List Nat := decodeRunesAux s 0

/-- The function `isSpace` of `fmt`: the Unicode white-space runes. -/
def isSpace (r : Nat) : Bool :=
  (9 ≤ r ∧ r ≤ 13) ∨ r = 32 ∨ r = 133 ∨ r = 160 ∨ r = 5760 ∨ (8192 ≤ r ∧ r ≤ 8202)
    ∨ r = 8232 ∨ r = 8233 ∨ r = 8239 ∨ r = 8287 ∨ r = 12288

/-- The method `ss.SkipSpace` when neither `nlIsSpace` nor `nlIsEnd` is set (the
mode of `Sscanf`): spaces are dropped, a newline is an error, the first other
rune stays in the input. -/
def SkipSpace : List Nat → Except ScanError (List Nat)
  | [] => .ok []
  | r :: rs =>
    if r = 10 then .error .unexpectedNewline
    else if isSpace r then SkipSpace rs
    else .ok (r :: rs)

/-- Membership in `decimalDigits = "0123456789"`. -/
def isDigit (r : Nat) : Bool := 48 ≤ r ∧ r ≤ 57

/-- The method `ss.scanNumber(decimalDigits, false)`: there must be input and it
must start with a digit; the token is the longest run of digits. Returns the
token and the input after it. -/
def scanNumber (rs : List Nat) : Except ScanError (List Nat × List Nat) :=
  match rs with
  | [] => .error .eof
  | r :: rest =>
    if isDigit r then .ok (r :: rest.takeWhile isDigit, rest.dropWhile isDigit)
    else .error .expectedInteger

/-- The value of a token of decimal digits. -/
def digitsValue (tok : List Nat) : Nat := tok.foldl (fun acc r => acc * 10 + (r - 48)) 0

/-- The call `strconv.ParseUint(tok, 10, 64)` on a token of digits. -/
def ParseUint (tok : List Nat) : Except ScanError Nat :=
  if digitsValue tok < 2 ^ 64 then .ok (digitsValue tok) else .error .range

/-- The call `strconv.ParseInt(tok, 10, 64)` on a token of digits with the sign
read before it (`neg` when the sign was `-`). -/
def ParseInt (neg : Bool) (tok : List Nat) : Except ScanError Int :=
  if neg then
    if digitsValue tok ≤ 2 ^ 63 then .ok (-(digitsValue tok : Int)) else .error .range
  else
    if digitsValue tok < 2 ^ 63 then .ok (digitsValue tok : Int) else .error .range

/-- The method `ss.scanUint('d', bitSize)`: skip space, require input, read a
number token, parse it in 64 bits and check that it fits `bitSize` bits. -/
def scanUint (bitSize : Nat) (rs : List Nat) : Except ScanError (Int × List Nat) :=
  match SkipSpace rs with
  | .error e => .error e
  | .ok [] => .error .eof
  | .ok (r :: rest) =>
    match scanNumber (r :: rest) with
    | .error e => .error e
    | .ok (tok, rest1) =>
      match ParseUint tok with
      | .error e => .error e
      | .ok i => if i < 2 ^ bitSize then .ok ((i : Int), rest1) else .error .overflow

/-- The method `ss.scanInt('d', bitSize)`: skip space, require input, accept one
sign, read a number token, parse it in 64 bits and check that it fits `bitSize`
bits. -/
def scanInt (bitSize : Nat) (rs : List Nat) : Except ScanError (Int × List Nat) :=
  match SkipSpace rs with
  | .error e => .error e
  | .ok [] => .error .eof
  | .ok (r :: rest) =>
    let neg := decide (r = 45)
    let afterSign := if r = 43 ∨ r = 45 then rest else r :: rest
    match scanNumber afterSign with
    | .error e => .error e
    | .ok (tok, rest1) =>
      match ParseInt neg tok with
      | .error e => .error e
      | .ok i =>
        if -(2 ^ (bitSize - 1) : Int) ≤ i ∧ i < 2 ^ (bitSize - 1) then .ok (i, rest1)
        else .error .overflow

/-- The pointer operands the source passes to `Sscanf`. -/
inductive Operand where
  /-- A `*int` (64 bits). -/
  | int
  /-- A `*uint32`. -/
  | uint32
  /-- A `*uint8`. -/
  | uint8
  deriving DecidableEq

/-- The method `ss.scanOne('d', arg)` by the type of the operand. -/
def scanOne (op : Operand) (rs : List Nat) : Except ScanError (Int × List Nat) :=
  match op with
  | .int => scanInt 64 rs
  | .uint32 => scanUint 32 rs
  | .uint8 => scanUint 8 rs

/-- The method `ss.doScanf` for formats made of literal (non-space) text and
two-byte verbs, over the rune sequence of the input. Literal text must match
the input rune by rune; at a verb, space is skipped and one operand is scanned
(only the verb `d` is accepted). Input left over when the format ends is
ignored. The values scanned are returned in the order of the operands. -/
def doScanf : List Nat → List Operand → List Nat → Except ScanError (List Int)
  | [], ops, _ => if ops = [] then .ok [] else .error .tooManyOperands
  | f :: fs, ops, rs =>
    if f = 37 then
      match fs with
      | [] => .error .missingVerb
      | v :: fs1 =>
        match SkipSpace rs with
        | .error e => .error e
        | .ok rs1 =>
          match ops with
          | [] => .error .tooFewOperands
          | op :: ops1 =>
            if v = 100 then
              match scanOne op rs1 with
              | .error e => .error e
              | .ok (x, rs2) =>
                match doScanf fs1 ops1 rs2 with
                | .error e => .error e
                | .ok xs => .ok (x :: xs)
            else .error .badVerb
    else
      match rs with
      | [] => .error .unexpectedEOF
      | r :: rs1 => if f = r then doScanf fs ops rs1 else .error .noMatch

/-- The call `fmt.Sscanf(s, format, operands...)`: `doScanf` over the runes of
the input, of which at most `hugeWid` are read. -/
def Sscanf (s : GoString) (format : GoString) (ops : List Operand) :
    Except ScanError (List Int) :=
  doScanf (decodeRunes format) ops ((decodeRunes s).take hugeWid)

/-! ## The digest record -/

/-- The struct `Argon2Digest`. -/
structure Argon2Digest where
  /-- Time cost (`uint32`). -/
  iterations : Nat
  /-- Memory cost in KiB (`uint32`). -/
  memory : Nat
  /-- Parallelism (`uint8`). -/
  threads : Nat
  /-- Length of the derived key (`uint32`). -/
  keyLength : Nat
  /-- Length of the salt to generate (`uint32`). -/
  saltLength : Nat
  /-- The derived key. -/
  Digest : List Byte
  /-- The salt. -/
  Salt : List Byte
  deriving DecidableEq, Repr

/-- The constant `argon2.Version` of `golang.org/x/crypto/argon2` (`0x13`). -/
def Version : Int := 19

/-- The signature of the external primitive `argon2.IDKey(password, salt, time,
memory, threads, keyLen)`. The primitive is taken as a total function: that it
panics on parameters it rejects (`time < 1`, `threads < 1`) is outside the
model. -/
abbrev IDKeyFn := List Byte → List Byte → Nat → Nat → Nat → Nat → List Byte

/-- The contract of `argon2.IDKey`: the derived key has `keyLen` bytes. -/
def IDKeyLength (idKey : IDKeyFn) : Prop :=
  ∀ password salt time memory threads keyLen,
    (idKey password salt time memory threads keyLen).length = keyLen

/-- The outcome of one call of `crypto/rand.Read`: a failure with its error, or
the stream of random bytes the buffer is filled from. -/
structure RandSource where
  /-- The error of the call, if it fails. -/
  failure : Option Nat
  /-- The random bytes delivered, by position. -/
  stream : Nat → Byte

/-- The call `rand.Read(buf)` on a fresh buffer of `n` bytes: on success all
`n` bytes are filled. -/
def RandSource.Read (rnd : RandSource) (n : Nat) : Except Error (List Byte) :=
  match rnd.failure with
  | some code => .error (.randomSource code)
  | none => .ok ((List.range n).map rnd.stream)

/-- The method `generateSalt`: the record after the call and the error
returned. -/
def generateSalt (rnd : RandSource) (a : Argon2Digest) : Argon2Digest × Option Error :=
  match rnd.Read a.saltLength with
  | .error err => (a, some err)
  | .ok salt => ({ a with Salt := salt }, none)

/-- The method `GenerateDigest`: the record after the call and the error
returned. -/
def GenerateDigest (idKey : IDKeyFn) (rnd : RandSource) (a : Argon2Digest) (raw : List Byte) :
    Argon2Digest × Option Error :=
  match generateSalt rnd a with
  | (a1, some err) => (a1, some err)
  | (a1, none) =>
    ({ a1 with Digest := idKey raw a1.Salt a1.iterations a1.memory a1.threads a1.keyLength },
      none)

/-- The function `subtle.ConstantTimeByteEq(x, y)`:
`int((uint32(x^y) - 1) >> 31)`. -/
def ConstantTimeByteEq (x y : Byte) : Nat :=
  ((x.val ^^^ y.val) + 2 ^ 32 - 1) % 2 ^ 32 / 2 ^ 31

/-- The loop of `subtle.ConstantTimeCompare`: `v |= x[i] ^ y[i]` for every
index. -/
def xorAccumulate : List Byte → List Byte → Byte → Byte
  | x :: xs, y :: ys, v => xorAccumulate xs ys (byte (v.val ||| (x.val ^^^ y.val)))
  | _, _, v => v

/-- The function `subtle.ConstantTimeCompare(x, y)`: `0` when the lengths
differ, otherwise `1` exactly when no byte differs. -/
def ConstantTimeCompare (x y : List Byte) : Nat :=
  if x.length ≠ y.length then 0
  else ConstantTimeByteEq (xorAccumulate x y 0) 0

/-- The method `CompareBytes`: the result and the record after the call. -/
def CompareBytes (idKey : IDKeyFn) (a : Argon2Digest) (raw : List Byte) :
    Bool × Argon2Digest :=
  let provided := idKey raw a.Salt a.iterations a.memory a.threads a.keyLength
  (decide (ConstantTimeCompare a.Digest provided = 1), a)

/-- The method `Compare`: the result and the record after the call. -/
def Compare (idKey : IDKeyFn) (a : Argon2Digest) (raw : GoString) : Bool × Argon2Digest :=
  CompareBytes idKey a (toBytes raw)

/-- The method `String`. -/
def String_ (a : Argon2Digest) : GoString :=
  let saltDigest := b64Encode a.Salt
  let hashDigest := b64Encode a.Digest
  Sprintf (str "$argon2id$v=%d$m=%d,t=%d,p=%d$%s$%s")
    [.int Version, .int a.memory, .int a.iterations, .int a.threads,
      .string saltDigest, .string hashDigest]

/-- The function `New`. -/
def New : Argon2Digest :=
  { iterations := 3, saltLength := 16, memory := 32 * 1024, threads := 4, keyLength := 32,
    Digest := [], Salt := [] }

/-- The function `NewFromBytes`: the error of `GenerateDigest` is dropped. -/
def NewFromBytes (idKey : IDKeyFn) (rnd : RandSource) (raw : List Byte) : Argon2Digest :=
  let d := New
  (GenerateDigest idKey rnd d raw).1

/-- The function `NewFromString`. -/
def NewFromString (idKey : IDKeyFn) (rnd : RandSource) (raw : GoString) : Argon2Digest :=
  NewFromBytes idKey rnd (toBytes raw)

/-- The function `NewFromEncoded`. -/
def NewFromEncoded (encoded : GoString) : Except Error Argon2Digest :=
  let vals := Split dollar encoded
  if vals.length ≠ 6 then .error .ErrInvalidHash
  else
    match Sscanf (vals.getD 2 []) (str "v=%d") [.int] with
    | .error err => .error (.scan err)
    | .ok vs =>
      let version := vs.getD 0 0
      if version ≠ Version then .error .ErrIncompatibleVersion
      else
        let d := New
        match Sscanf (vals.getD 3 []) (str "m=%d,t=%d,p=%d") [.uint32, .uint32, .uint8] with
        | .error err => .error (.scan err)
        | .ok ps =>
          let d := { d with memory := (ps.getD 0 0).toNat, iterations := (ps.getD 1 0).toNat,
                            threads := (ps.getD 2 0).toNat }
          match b64Decode (vals.getD 4 []) with
          | none => .error .corruptInput
          | some salt =>
            let d := { d with Salt := salt, saltLength := salt.length % 2 ^ 32 }
            match b64Decode (vals.getD 5 []) with
            | none => .error .corruptInput
            | some digest =>
              .ok { d with Digest := digest, keyLength := digest.length % 2 ^ 32 }

/-- The input after a number token does not continue the token. -/
def NoDigitHead (rest : List Nat) : Prop := ∀ r rs, rest = r :: rs → isDigit r = false

/-- The runes of the decimal text of `n`. -/
def decimalRunes (n : Nat) : List Nat := (decimal n).map Fin.val

/-- Membership in the standard alphabet `A-Z`, `a-z`, `0-9`, `+`, `/`. -/
def InAlphabet (c : Byte) : Prop :=
  (65 ≤ c.val ∧ c.val ≤ 90) ∨ (97 ≤ c.val ∧ c.val ≤ 122) ∨ (48 ≤ c.val ∧ c.val ≤ 57) ∨
    c.val = 43 ∨ c.val = 47

instance (c : Byte) : Decidable (InAlphabet c) := by
  unfold InAlphabet; infer_instance

/-! ## The encoded text and its segments -/

/-- The third segment of the encoded text: `v=` and the version. -/
def versionSegment : GoString := str "v=" ++ decimalInt Version

/-- The fourth segment of the encoded text: the three cost parameters. -/
def paramSegment (memory iterations threads : Nat) : GoString :=
  str "m=" ++ decimal memory ++ str ",t=" ++ decimal iterations ++ str ",p=" ++ decimal threads

/-- The record `NewFromEncoded` builds from the encoded text of `a`: the cost
parameters, salt and digest of `a`, and the two lengths as observed (reduced to
32 bits). -/
def decodedOf (a : Argon2Digest) : Argon2Digest :=
  { iterations := a.iterations, memory := a.memory, threads := a.threads,
    keyLength := a.Digest.length % 2 ^ 32, saltLength := a.Salt.length % 2 ^ 32,
    Digest := a.Digest, Salt := a.Salt }

/-! ## Sample collaborators used to instantiate the theorems -/

/-- A toy key-derivation function with the shape of `argon2.IDKey`: byte `i` of
the output mixes the inputs with `i`. -/
def sampleIDKey : IDKeyFn := fun password salt time memory threads keyLen =>
  (List.range keyLen).map (fun i =>
    byte (i + password.length + (password.getD i 0).val + salt.length + time + memory + threads))

/-- A random source that succeeds. -/
def sampleRand : RandSource := { failure := none, stream := fun i => byte (7 * i + 3) }

/-- A record with three zero bytes of salt and of digest and small cost
parameters. -/
def smallRecord : Argon2Digest :=
  { iterations := 2, memory := 1, threads := 3, keyLength := 3, saltLength := 3,
    Digest := [0, 0, 0], Salt := [0, 0, 0] }

/-- A random source that fails. -/
def failingRand : RandSource := { failure := some 1, stream := fun _ => 0 }

/-- A salt of `2 ^ 32` zero bytes. -/
@[irreducible] def longSalt : List Byte := List.replicate (2 ^ 32) 0

/-- The default record with a salt of `2 ^ 32` bytes. -/
def longSaltRecord : Argon2Digest := { New with Salt := longSalt }

/-! ## Base64 as the spec words it: a stream of bits cut into groups of six -/

/-- The eight bits of a byte, most significant first. -/
def bitsOfByte (b : Byte) : List Nat :=
  [b.val / 128 % 2, b.val / 64 % 2, b.val / 32 % 2, b.val / 16 % 2,
    b.val / 8 % 2, b.val / 4 % 2, b.val / 2 % 2, b.val % 2]

/-- The number written by a list of bits, most significant first. -/
def bitsValue (bits : List Nat) : Nat := bits.foldl (fun acc b => acc * 2 + b) 0

/-- Cut a bit stream into groups of six, the last group filled up with zero
bits, and read each group as a number below 64. -/
def sextets : List Nat → List Nat
  | [] => []
  | b0 :: b1 :: b2 :: b3 :: b4 :: b5 :: rest =>
    bitsValue [b0, b1, b2, b3, b4, b5] :: sextets rest
  | b0 :: rest => [bitsValue ((b0 :: rest) ++ List.replicate (5 - rest.length) 0)]

/-- The 64 characters of the standard alphabet, in order. -/
def alphabetStd : GoString :=
  str "ABCDEFGHIJKLMNOPQRSTUVWXYZabcdefghijklmnopqrstuvwxyz0123456789+/"

/-- Unpadded standard base64 as a specification: the bits of the bytes, cut
into groups of six, each group written as its character of the standard
alphabet; no `=` is appended. -/
def b64Spec (bs : List Byte) : GoString :=
  (sextets (bs.flatMap bitsOfByte)).map (fun i => alphabetStd.getD i 0)

/-- The text without its carriage returns and line feeds. -/
def stripNewlines (s : GoString) : GoString :=
  s.filter (fun c => decide (c.val ≠ 10 ∧ c.val ≠ 13))

/-- White space that `Sscanf` skips before a number: space runes other than the
newline. -/
def Blank (sp : List Nat) : Prop := ∀ r ∈ sp, isSpace r = true ∧ r ≠ 10

/-- A token of decimal digits that writes the number `v`, which fits `bits`
bits. -/
def NumberText (tok : List Nat) (v bits : Nat) : Prop :=
  tok ≠ [] ∧ (∀ r ∈ tok, isDigit r = true) ∧ digitsValue tok = v ∧ v < 2 ^ bits

/-- The shape of a parameter segment that is accepted, as runes:
`m=<number>,t=<number>,p=<number>` in this order, each number optionally
preceded by white space, the third number followed by anything that does not
continue it. The numbers written are `m`, `t` and `p`, and fit 32, 32 and 8
bits. -/
def ParamsText (rs : List Nat) (m t p : Nat) : Prop :=
  ∃ sp1 dm sp2 dt sp3 dp rest,
    rs = 109 :: 61 :: (sp1 ++ (dm ++ (44 :: 116 :: 61 :: (sp2 ++ (dt ++
      (44 :: 112 :: 61 :: (sp3 ++ (dp ++ rest)))))))) ∧
    Blank sp1 ∧ Blank sp2 ∧ Blank sp3 ∧
    NumberText dm m 32 ∧ NumberText dt t 32 ∧ NumberText dp p 8 ∧ NoDigitHead rest

/-- The parameter segment as the specification words it: exactly `m=<int>,t=<int>,p=<int>`
in this order, each `<int>` a non-empty run of decimal digits, the values in
range for `uint32`, `uint32` and `uint8`. -/
def IsParamSegment (seg : GoString) : Prop :=
  ∃ dm dt dp : GoString,
    seg = str "m=" ++ dm ++ str ",t=" ++ dt ++ str ",p=" ++ dp ∧
    dm ≠ [] ∧ dt ≠ [] ∧ dp ≠ [] ∧
    (∀ c ∈ dm ++ dt ++ dp, 48 ≤ c.val ∧ c.val ≤ 57) ∧
    digitsValue (dm.map Fin.val) < 2 ^ 32 ∧ digitsValue (dt.map Fin.val) < 2 ^ 32 ∧
    digitsValue (dp.map Fin.val) < 2 ^ 8

/-- Valid unpadded standard-alphabet base64: the text is the base64 text of some
bytes. -/
def IsRawStdBase64 (seg : GoString) : Prop := ∃ bs : List Byte, b64Spec bs = seg

/-! # Theorems -/

/-! ## Facts about `Split` -/

theorem Split_ne_nil (sep : Byte) (s : GoString) : Split sep s ≠ [] := by
  cases s with
  | nil => simp [Split]
  | cons c cs =>
    unfold Split
    split
    · simp
    · split <;> simp

theorem Split_of_not_mem (sep : Byte) (s : GoString) (h : sep ∉ s) : Split sep s = [s] := by
  induction s with
  | nil => rfl
  | cons c cs ih =>
    have hc : c ≠ sep := fun e => h (by simp [e])
    have hcs : sep ∉ cs := fun e => h (by simp [e])
    simp [Split, hc, ih hcs]

theorem Split_append_sep (sep : Byte) (a b : GoString) (h : sep ∉ a) :
    Split sep (a ++ sep :: b) = a :: Split sep b := by
  induction a with
  | nil => simp [Split]
  | cons c cs ih =>
    have hc : c ≠ sep := fun e => h (by simp [e])
    have hcs : sep ∉ cs := fun e => h (by simp [e])
    simp [Split, hc, ih hcs]

theorem length_Split (sep : Byte) (s : GoString) :
    (Split sep s).length = s.count sep + 1 := by
  induction s with
  | nil => rfl
  | cons c cs ih =>
    unfold Split
    by_cases hc : c = sep
    · subst hc; simp [ih]
    · have hne : (c == sep) = false := by simpa using hc
      simp only [hc, if_false, List.count_cons, hne]
      split
      · next h => exact absurd h (Split_ne_nil sep cs)
      · next seg segs h => rw [h] at ih; simpa using ih

/-! ## Facts about decimal text -/

theorem byte_val (n : Nat) (h : n < 256) : (byte n).val = n := by
  simp [byte, Nat.mod_eq_of_lt h]

theorem decimal_ne_nil (n : Nat) : decimal n ≠ [] := by
  unfold decimal
  split
  · simp
  · next h => simpa [Nat.digits_ne_nil_iff_ne_zero] using h

theorem decimal_mem (n : Nat) (c : Byte) (h : c ∈ decimal n) : 48 ≤ c.val ∧ c.val ≤ 57 := by
  unfold decimal at h
  split at h
  · simp at h; subst h; decide
  · simp only [List.mem_map, List.mem_reverse] at h
    obtain ⟨d, hd, rfl⟩ := h
    have hlt : d < 10 := Nat.digits_lt_base (by decide) hd
    rw [byte_val _ (by omega)]
    omega

theorem digitsValue_append_singleton (l : List Nat) (r : Nat) :
    digitsValue (l ++ [r]) = digitsValue l * 10 + (r - 48) := by
  simp [digitsValue, List.foldl_append]

theorem digitsValue_reverse_digits (l : List Nat) (h : ∀ d ∈ l, d < 10) :
    digitsValue ((l.reverse.map (fun d => byte (48 + d))).map Fin.val) = Nat.ofDigits 10 l := by
  induction l with
  | nil => simp [digitsValue, Nat.ofDigits]
  | cons d l ih =>
    have hd : d < 10 := h d (by simp)
    have hl : ∀ x ∈ l, x < 10 := fun x hx => h x (by simp [hx])
    simp only [List.reverse_cons, List.map_append, List.map_cons, List.map_nil]
    rw [digitsValue_append_singleton, ih hl, byte_val _ (by omega), Nat.ofDigits_cons]
    simp
    omega

theorem digitsValue_decimal (n : Nat) : digitsValue ((decimal n).map Fin.val) = n := by
  unfold decimal
  split
  · next h => subst h; rfl
  · rw [digitsValue_reverse_digits _ (fun d hd => Nat.digits_lt_base (by decide) hd),
      Nat.ofDigits_digits]

theorem length_decimal (n : Nat) (h : n < 2 ^ 64) : (decimal n).length ≤ 20 := by
  unfold decimal
  split
  · simp
  · next hn =>
    simp only [List.length_map, List.length_reverse]
    have h1 := Nat.base_pow_length_digits_le 10 n (by decide) hn
    have h2 : 10 ^ (Nat.digits 10 n).length < 10 ^ 21 := by
      calc 10 ^ (Nat.digits 10 n).length ≤ 10 * n := h1
        _ < 10 ^ 21 := by norm_num at h ⊢; omega
    have := (Nat.pow_lt_pow_iff_right (by decide : 1 < 10)).mp h2
    omega

theorem decimalInt_ofNat (n : Nat) : decimalInt (n : Int) = decimal n := by
  simp [decimalInt]

/-! ## Facts about runes of ASCII text -/

theorem decodeRunes_ascii (s : GoString) (h : ∀ c ∈ s, c.val < 128) :
    decodeRunes s = s.map Fin.val := by
  unfold decodeRunes
  induction s with
  | nil => rfl
  | cons c cs ih =>
    have hc : c.val < 128 := h c (by simp)
    have hcs : ∀ x ∈ cs, x.val < 128 := fun x hx => h x (by simp [hx])
    simp [decodeRunesAux, DecodeRune, hc, ih hcs]

/-! ## Facts about scanning numbers -/

theorem takeWhile_digits_append (tok rest : List Nat) (ht : ∀ r ∈ tok, isDigit r = true)
    (hr : NoDigitHead rest) : (tok ++ rest).takeWhile isDigit = tok := by
  induction tok with
  | nil =>
    cases rest with
    | nil => rfl
    | cons r rs => simp [List.takeWhile, hr r rs rfl]
  | cons t ts ih =>
    have h1 : isDigit t = true := ht t (by simp)
    simp [List.takeWhile, h1, ih (fun r hr => ht r (by simp [hr]))]

theorem dropWhile_digits_append (tok rest : List Nat) (ht : ∀ r ∈ tok, isDigit r = true)
    (hr : NoDigitHead rest) : (tok ++ rest).dropWhile isDigit = rest := by
  induction tok with
  | nil =>
    cases rest with
    | nil => rfl
    | cons r rs => simp [List.dropWhile, hr r rs rfl]
  | cons t ts ih =>
    have h1 : isDigit t = true := ht t (by simp)
    simp [List.dropWhile, h1, ih (fun r hr => ht r (by simp [hr]))]

theorem scanNumber_append (tok rest : List Nat) (hne : tok ≠ [])
    (ht : ∀ r ∈ tok, isDigit r = true) (hr : NoDigitHead rest) :
    scanNumber (tok ++ rest) = .ok (tok, rest) := by
  cases tok with
  | nil => exact absurd rfl hne
  | cons t ts =>
    have h1 : isDigit t = true := ht t (by simp)
    have hts : ∀ r ∈ ts, isDigit r = true := fun r hr => ht r (by simp [hr])
    simp [scanNumber, h1, takeWhile_digits_append ts rest hts hr,
      dropWhile_digits_append ts rest hts hr]

theorem isSpace_of_isDigit (r : Nat) (h : isDigit r = true) : isSpace r = false ∧ r ≠ 10 := by
  simp only [isDigit, decide_eq_true_eq] at h
  constructor
  · simp only [isSpace, decide_eq_false_iff_not]
    omega
  · omega

theorem SkipSpace_digit (r : Nat) (rs : List Nat) (h : isDigit r = true) :
    SkipSpace (r :: rs) = .ok (r :: rs) := by
  have := isSpace_of_isDigit r h
  simp [SkipSpace, this.1, this.2]

theorem decimalRunes_isDigit (n : Nat) : ∀ r ∈ decimalRunes n, isDigit r = true := by
  intro r hr
  simp only [decimalRunes, List.mem_map] at hr
  obtain ⟨c, hc, rfl⟩ := hr
  have := decimal_mem n c hc
  simp [isDigit, this.1, this.2]

theorem decimalRunes_ne_nil (n : Nat) : decimalRunes n ≠ [] := by
  simp [decimalRunes, decimal_ne_nil]

theorem scanUint_decimal (bitSize n : Nat) (rest : List Nat) (hb : bitSize ≤ 64)
    (hn : n < 2 ^ bitSize) (hr : NoDigitHead rest) :
    scanUint bitSize (decimalRunes n ++ rest) = .ok ((n : Int), rest) := by
  have h64 : n < 2 ^ 64 := lt_of_lt_of_le hn (Nat.pow_le_pow_right (by decide) hb)
  have hne := decimalRunes_ne_nil n
  have hd := decimalRunes_isDigit n
  have hscan := scanNumber_append _ rest hne hd hr
  have hval : digitsValue (decimalRunes n) = n := digitsValue_decimal n
  cases htok : decimalRunes n with
  | nil => exact absurd htok hne
  | cons t ts =>
    rw [htok] at hscan hd hval
    have ht : isDigit t = true := hd t (by simp)
    simp only [scanUint, List.cons_append, SkipSpace_digit t _ ht]
    rw [List.cons_append] at hscan
    norm_num at h64
    simp [hscan, ParseUint, hval, h64, hn]

theorem scanInt_decimal (n : Nat) (rest : List Nat) (hn : n < 2 ^ 63)
    (hr : NoDigitHead rest) :
    scanInt 64 (decimalRunes n ++ rest) = .ok ((n : Int), rest) := by
  have hne := decimalRunes_ne_nil n
  have hd := decimalRunes_isDigit n
  have hscan := scanNumber_append _ rest hne hd hr
  have hval : digitsValue (decimalRunes n) = n := digitsValue_decimal n
  cases htok : decimalRunes n with
  | nil => exact absurd htok hne
  | cons t ts =>
    rw [htok] at hscan hd hval
    have ht : isDigit t = true := hd t (by simp)
    have ht2 : 48 ≤ t ∧ t ≤ 57 := by simpa [isDigit] using ht
    have h43 : t ≠ 43 := by omega
    have h45 : t ≠ 45 := by omega
    simp only [scanInt, List.cons_append, SkipSpace_digit t _ ht]
    rw [List.cons_append] at hscan
    have hi : -(2 ^ 63 : Int) ≤ (n : Int) ∧ (n : Int) < 2 ^ 63 := by
      constructor
      · have : (0 : Int) ≤ (n : Int) := Int.ofNat_nonneg n
        omega
      · exact_mod_cast hn
    norm_num at hn hi
    simp [h43, h45, hscan, ParseInt, hval, hn, hi]

theorem scanInt_neg_decimal (n : Nat) (rest : List Nat) (hn : n ≤ 2 ^ 63)
    (hr : NoDigitHead rest) :
    scanInt 64 (45 :: decimalRunes n ++ rest) = .ok (-(n : Int), rest) := by
  have hne := decimalRunes_ne_nil n
  have hd := decimalRunes_isDigit n
  have hscan := scanNumber_append _ rest hne hd hr
  have hval : digitsValue (decimalRunes n) = n := digitsValue_decimal n
  have hi : -(2 ^ 63 : Int) ≤ -(n : Int) ∧ -(n : Int) < 2 ^ 63 := by
    have h0 : (0 : Int) ≤ (n : Int) := Int.ofNat_nonneg n
    have h1 : (n : Int) ≤ 2 ^ 63 := by exact_mod_cast hn
    constructor <;> omega
  norm_num at hn hi
  simp [scanInt, SkipSpace, isSpace, hscan, ParseInt, hval, hn, hi]

/-! ## Facts about base64 -/

theorem decodeMap_encodeStd_fin : ∀ i : Fin 64, decodeMap (encodeStd i.val) = i.val := by
  decide

theorem decodeMap_encodeStd (x : Nat) : decodeMap (encodeStd (x % 64)) = x % 64 :=
  decodeMap_encodeStd_fin ⟨x % 64, Nat.mod_lt x (by decide)⟩

theorem decodeMap_encodeStd_ne (x : Nat) : decodeMap (encodeStd (x % 64)) ≠ 255 := by
  rw [decodeMap_encodeStd]
  have := Nat.mod_lt x (by decide : 0 < 64)
  omega

theorem byte_eq_of_val (n : Nat) (a : Byte) (h : n % 256 = a.val) : byte n = a :=
  Fin.ext h

theorem b64DecodeLoop_step (x : Nat) (cs : GoString) (dbuf : List Nat)
    (h : dbuf.length ≠ 3) :
    b64DecodeLoop (encodeStd (x % 64) :: cs) dbuf = b64DecodeLoop cs (dbuf ++ [x % 64]) := by
  rw [b64DecodeLoop, if_pos (decodeMap_encodeStd_ne x), if_neg h, decodeMap_encodeStd]

theorem b64DecodeLoop_full (x d0 d1 d2 : Nat) (cs : GoString) (more : List Byte)
    (h : b64DecodeLoop cs [] = some more) :
    b64DecodeLoop (encodeStd (x % 64) :: cs) [d0, d1, d2] =
      some (byte ((d0 * 262144 + d1 * 4096 + d2 * 64 + x % 64) / 65536) ::
        byte ((d0 * 262144 + d1 * 4096 + d2 * 64 + x % 64) / 256) ::
        byte (d0 * 262144 + d1 * 4096 + d2 * 64 + x % 64) :: more) := by
  rw [b64DecodeLoop, if_pos (decodeMap_encodeStd_ne x), if_pos (by rfl), decodeMap_encodeStd, h]
  rfl

theorem b64DecodeLoop_encode : ∀ bs : List Byte, b64DecodeLoop (b64Encode bs) [] = some bs
  | [] => by simp [b64Encode, b64DecodeLoop, finishQuantum]
  | [a] => by
    have ha := a.isLt
    simp only [b64Encode]
    rw [b64DecodeLoop_step _ _ _ (by simp), b64DecodeLoop_step _ _ _ (by simp)]
    simp only [b64DecodeLoop, List.nil_append, List.cons_append, finishQuantum]
    rw [if_neg (by omega)]
    congr 2
    exact byte_eq_of_val _ _ (by omega)
  | [a, b] => by
    have ha := a.isLt
    have hb := b.isLt
    simp only [b64Encode]
    rw [b64DecodeLoop_step _ _ _ (by simp), b64DecodeLoop_step _ _ _ (by simp),
      b64DecodeLoop_step _ _ _ (by simp)]
    simp only [b64DecodeLoop, List.nil_append, List.cons_append, finishQuantum]
    rw [if_neg (by omega)]
    congr 2
    · exact byte_eq_of_val _ _ (by omega)
    · congr 1
      exact byte_eq_of_val _ _ (by omega)
  | a :: b :: c :: rest => by
    have ih := b64DecodeLoop_encode rest
    have ha := a.isLt
    have hb := b.isLt
    have hc := c.isLt
    simp only [b64Encode]
    rw [b64DecodeLoop_step _ _ _ (by simp), b64DecodeLoop_step _ _ _ (by simp),
      b64DecodeLoop_step _ _ _ (by simp)]
    simp only [List.nil_append, List.cons_append]
    rw [show (a.val * 65536 + b.val * 256 + c.val) % 64
        = ((a.val * 65536 + b.val * 256 + c.val) % 64) % 64 by omega,
      b64DecodeLoop_full _ _ _ _ _ _ ih]
    congr 2
    · exact byte_eq_of_val _ _ (by omega)
    · congr 1
      · exact byte_eq_of_val _ _ (by omega)
      · congr 1
        exact byte_eq_of_val _ _ (by omega)

theorem b64Decode_encode (bs : List Byte) : b64Decode (b64Encode bs) = some bs :=
  b64DecodeLoop_encode bs

theorem encodeStd_inAlphabet_fin : ∀ i : Fin 64, InAlphabet (encodeStd i.val) := by
  decide

theorem encodeStd_inAlphabet (x : Nat) : InAlphabet (encodeStd (x % 64)) :=
  encodeStd_inAlphabet_fin ⟨x % 64, Nat.mod_lt x (by decide)⟩

theorem b64Encode_inAlphabet : ∀ (bs : List Byte) (c : Byte), c ∈ b64Encode bs → InAlphabet c
  | [], c, h => by simp [b64Encode] at h
  | [a], c, h => by
    simp only [b64Encode, List.mem_cons, List.mem_singleton, List.not_mem_nil, or_false] at h
    rcases h with h | h <;> subst h <;> exact encodeStd_inAlphabet _
  | [a, b], c, h => by
    simp only [b64Encode, List.mem_cons, List.mem_singleton, List.not_mem_nil, or_false] at h
    rcases h with h | h | h <;> subst h <;> exact encodeStd_inAlphabet _
  | a :: b :: c1 :: rest, c, h => by
    simp only [b64Encode, List.mem_cons] at h
    rcases h with h | h | h | h | h
    · subst h; exact encodeStd_inAlphabet _
    · subst h; exact encodeStd_inAlphabet _
    · subst h; exact encodeStd_inAlphabet _
    · subst h; exact encodeStd_inAlphabet _
    · exact b64Encode_inAlphabet rest c h

theorem str_format :
    str "$argon2id$v=%d$m=%d,t=%d,p=%d$%s$%s" =
      [36, 97, 114, 103, 111, 110, 50, 105, 100, 36, 118, 61, 37, 100, 36, 109, 61, 37, 100,
        44, 116, 61, 37, 100, 44, 112, 61, 37, 100, 36, 37, 115, 36, 37, 115] := by
  decide

theorem String_segments (a : Argon2Digest) :
    String_ a = dollar :: (str "argon2id" ++ dollar :: (versionSegment ++ dollar ::
      (paramSegment a.memory a.iterations a.threads ++ dollar ::
        (b64Encode a.Salt ++ dollar :: b64Encode a.Digest)))) := by
  have h1 : str "argon2id" = [97, 114, 103, 111, 110, 50, 105, 100] := by decide
  have h2 : str "v=" = [118, 61] := by decide
  have h3 : str "m=" = [109, 61] := by decide
  have h4 : str ",t=" = [44, 116, 61] := by decide
  have h5 : str ",p=" = [44, 112, 61] := by decide
  rw [String_, str_format, versionSegment, paramSegment, h1, h2, h3, h4, h5]
  simp [Sprintf, formatVerb, dollar, decimalInt_ofNat]

theorem dollar_not_mem_decimal (n : Nat) : dollar ∉ decimal n := by
  intro h
  have := decimal_mem n dollar h
  revert this
  decide

theorem dollar_not_mem_b64Encode (bs : List Byte) : dollar ∉ b64Encode bs := by
  intro h
  have := b64Encode_inAlphabet bs dollar h
  revert this
  decide

theorem decimal_version : decimalInt Version = [49, 57] := by
  simp [decimalInt, Version, decimal]
  decide

theorem dollar_not_mem_versionSegment : dollar ∉ versionSegment := by
  rw [versionSegment, decimal_version]
  decide

theorem dollar_not_mem_paramSegment (m t p : Nat) : dollar ∉ paramSegment m t p := by
  have h3 : dollar ∉ str "m=" := by decide
  have h4 : dollar ∉ str ",t=" := by decide
  have h5 : dollar ∉ str ",p=" := by decide
  simp [paramSegment, h3, h4, h5, dollar_not_mem_decimal]

theorem Split_String (a : Argon2Digest) :
    Split dollar (String_ a) =
      [[], str "argon2id", versionSegment, paramSegment a.memory a.iterations a.threads,
        b64Encode a.Salt, b64Encode a.Digest] := by
  rw [String_segments]
  have h0 : Split dollar (dollar :: (str "argon2id" ++ dollar :: (versionSegment ++ dollar ::
      (paramSegment a.memory a.iterations a.threads ++ dollar ::
        (b64Encode a.Salt ++ dollar :: b64Encode a.Digest))))) =
      [] :: Split dollar (str "argon2id" ++ dollar :: (versionSegment ++ dollar ::
      (paramSegment a.memory a.iterations a.threads ++ dollar ::
        (b64Encode a.Salt ++ dollar :: b64Encode a.Digest)))) := by
    simp [Split]
  rw [h0, Split_append_sep _ _ _ (by decide),
    Split_append_sep _ _ _ dollar_not_mem_versionSegment,
    Split_append_sep _ _ _ (dollar_not_mem_paramSegment _ _ _),
    Split_append_sep _ _ _ (dollar_not_mem_b64Encode _),
    Split_of_not_mem _ _ (dollar_not_mem_b64Encode _)]

/-! ## Scanning the segments of an encoded text -/

theorem doScanf_cons (f : Nat) (fs : List Nat) (ops : List Operand) (rs : List Nat) :
    doScanf (f :: fs) ops rs =
      if f = 37 then
        match fs with
        | [] => .error .missingVerb
        | v :: fs1 =>
          match SkipSpace rs with
          | .error e => .error e
          | .ok rs1 =>
            match ops with
            | [] => .error .tooFewOperands
            | op :: ops1 =>
              if v = 100 then
                match scanOne op rs1 with
                | .error e => .error e
                | .ok (x, rs2) =>
                  match doScanf fs1 ops1 rs2 with
                  | .error e => .error e
                  | .ok xs => .ok (x :: xs)
              else .error .badVerb
      else
        match rs with
        | [] => .error .unexpectedEOF
        | r :: rs1 => if f = r then doScanf fs ops rs1 else .error .noMatch := by
  cases fs <;> rfl

theorem doScanf_literal (f : Nat) (fs : List Nat) (ops : List Operand) (rs : List Nat)
    (h : f ≠ 37) : doScanf (f :: fs) ops (f :: rs) = doScanf fs ops rs := by
  rw [doScanf_cons, if_neg h]
  simp

theorem SkipSpace_decimalRunes (n : Nat) (rest : List Nat) :
    SkipSpace (decimalRunes n ++ rest) = .ok (decimalRunes n ++ rest) := by
  have hd := decimalRunes_isDigit n
  cases htok : decimalRunes n with
  | nil => exact absurd htok (decimalRunes_ne_nil n)
  | cons t ts =>
    rw [htok] at hd
    exact SkipSpace_digit t _ (hd t (by simp))

theorem doScanf_verb (fs : List Nat) (op : Operand) (ops : List Operand) (n : Nat)
    (rest : List Nat) (h : scanOne op (decimalRunes n ++ rest) = .ok ((n : Int), rest)) :
    doScanf (37 :: 100 :: fs) (op :: ops) (decimalRunes n ++ rest) =
      match doScanf fs ops rest with
      | .error e => .error e
      | .ok xs => .ok ((n : Int) :: xs) := by
  rw [doScanf_cons]
  simp only [if_true, SkipSpace_decimalRunes, h]

theorem scanOne_uint32_decimal (n : Nat) (rest : List Nat) (hn : n < 2 ^ 32)
    (hr : NoDigitHead rest) :
    scanOne .uint32 (decimalRunes n ++ rest) = .ok ((n : Int), rest) :=
  scanUint_decimal 32 n rest (by decide) hn hr

theorem scanOne_uint8_decimal (n : Nat) (rest : List Nat) (hn : n < 2 ^ 8)
    (hr : NoDigitHead rest) :
    scanOne .uint8 (decimalRunes n ++ rest) = .ok ((n : Int), rest) :=
  scanUint_decimal 8 n rest (by decide) hn hr

theorem runes_paramSegment (m t p : Nat) :
    decodeRunes (paramSegment m t p) =
      109 :: 61 :: (decimalRunes m ++ 44 :: 116 :: 61 :: (decimalRunes t ++
        44 :: 112 :: 61 :: (decimalRunes p ++ []))) := by
  have h3 : str "m=" = [109, 61] := by decide
  have h4 : str ",t=" = [44, 116, 61] := by decide
  have h5 : str ",p=" = [44, 112, 61] := by decide
  have v3 : ([109, 61] : GoString).map Fin.val = [109, 61] := by decide
  have v4 : ([44, 116, 61] : GoString).map Fin.val = [44, 116, 61] := by decide
  have v5 : ([44, 112, 61] : GoString).map Fin.val = [44, 112, 61] := by decide
  rw [decodeRunes_ascii]
  · simp only [paramSegment, h3, h4, h5, decimalRunes, List.map_append, v3, v4, v5]
    simp
  · intro c hc
    simp only [paramSegment, h3, h4, h5, List.mem_append, List.mem_cons, List.not_mem_nil,
      or_false] at hc
    rcases hc with ((((((h | h) | h) | (h | h | h)) | h) | (h | h | h)) | h)
    all_goals first
      | (subst h; decide)
      | (have hmem := decimal_mem _ c h; omega)

theorem length_paramSegment_runes (m t p : Nat) (hm : m < 2 ^ 32) (ht : t < 2 ^ 32)
    (hp : p < 2 ^ 8) : (decodeRunes (paramSegment m t p)).length ≤ hugeWid := by
  have h1 := length_decimal m (by omega)
  have h2 := length_decimal t (by omega)
  have h3 := length_decimal p (by omega)
  rw [runes_paramSegment]
  simp only [List.length_cons, List.length_append, decimalRunes, List.length_map,
    List.length_nil, hugeWid]
  omega

theorem Sscanf_paramSegment (m t p : Nat) (hm : m < 2 ^ 32) (ht : t < 2 ^ 32)
    (hp : p < 2 ^ 8) :
    Sscanf (paramSegment m t p) (str "m=%d,t=%d,p=%d") [.uint32, .uint32, .uint8] =
      .ok [(m : Int), (t : Int), (p : Int)] := by
  have hfmt : decodeRunes (str "m=%d,t=%d,p=%d") =
      [109, 61, 37, 100, 44, 116, 61, 37, 100, 44, 112, 61, 37, 100] := by decide
  have hnd : ∀ rs : List Nat, NoDigitHead (44 :: rs) := by
    intro rs r rs1 h
    cases h
    decide
  have hnil : NoDigitHead [] := by
    intro r rs1 h
    cases h
  rw [Sscanf, hfmt, List.take_of_length_le (length_paramSegment_runes m t p hm ht hp),
    runes_paramSegment]
  rw [doScanf_literal _ _ _ _ (by decide), doScanf_literal _ _ _ _ (by decide),
    doScanf_verb _ _ _ _ _ (scanOne_uint32_decimal m _ hm (hnd _)),
    doScanf_literal _ _ _ _ (by decide), doScanf_literal _ _ _ _ (by decide),
    doScanf_literal _ _ _ _ (by decide),
    doScanf_verb _ _ _ _ _ (scanOne_uint32_decimal t _ ht (hnd _)),
    doScanf_literal _ _ _ _ (by decide), doScanf_literal _ _ _ _ (by decide),
    doScanf_literal _ _ _ _ (by decide),
    doScanf_verb _ _ _ _ _ (scanOne_uint8_decimal p _ hp hnil)]
  simp [doScanf]

theorem Sscanf_versionSegment :
    Sscanf versionSegment (str "v=%d") [.int] = .ok [Version] := by
  rw [versionSegment, decimal_version]
  decide

theorem NewFromEncoded_String (a : Argon2Digest) (hm : a.memory < 2 ^ 32)
    (ht : a.iterations < 2 ^ 32) (hp : a.threads < 2 ^ 8) :
    NewFromEncoded (String_ a) = .ok (decodedOf a) := by
  rw [NewFromEncoded, Split_String]
  simp only [List.length_cons, List.length_nil, List.getD_cons_succ, List.getD_cons_zero,
    Sscanf_versionSegment, Sscanf_paramSegment _ _ _ hm ht hp, b64Decode_encode]
  simp [New, decodedOf]

/-! ## Facts about the constant-time comparison -/

theorem nat_or_eq_zero (a b : Nat) : a ||| b = 0 ↔ a = 0 ∧ b = 0 := by
  constructor
  · intro h
    have hbit : ∀ i, (a.testBit i || b.testBit i) = false := by
      intro i
      rw [← Nat.testBit_or, h, Nat.zero_testBit]
    constructor
    · apply Nat.eq_of_testBit_eq
      intro i
      have := hbit i
      simp only [Bool.or_eq_false_iff] at this
      simp [this.1]
    · apply Nat.eq_of_testBit_eq
      intro i
      have := hbit i
      simp only [Bool.or_eq_false_iff] at this
      simp [this.2]
  · rintro ⟨rfl, rfl⟩
    rfl

theorem accumulate_eq_zero (v x y : Byte) :
    byte (v.val ||| (x.val ^^^ y.val)) = 0 ↔ v = 0 ∧ x = y := by
  have hx : x.val ^^^ y.val < 2 ^ 8 := Nat.xor_lt_two_pow x.isLt y.isLt
  have hv : v.val ||| (x.val ^^^ y.val) < 2 ^ 8 := Nat.or_lt_two_pow v.isLt hx
  constructor
  · intro h
    have h1 : (byte (v.val ||| (x.val ^^^ y.val))).val = 0 := by rw [h]; rfl
    rw [byte_val _ hv, nat_or_eq_zero, Nat.xor_eq_zero] at h1
    exact ⟨Fin.ext h1.1, Fin.ext h1.2⟩
  · rintro ⟨rfl, rfl⟩
    apply Fin.ext
    rw [byte_val _ hv]
    simp

theorem xorAccumulate_eq_zero (xs : List Byte) :
    ∀ (ys : List Byte) (v : Byte), xs.length = ys.length →
      (xorAccumulate xs ys v = 0 ↔ v = 0 ∧ xs = ys) := by
  induction xs with
  | nil =>
    intro ys v h
    cases ys with
    | nil => simp [xorAccumulate]
    | cons y ys => simp at h
  | cons x xs ih =>
    intro ys v h
    cases ys with
    | nil => simp at h
    | cons y ys =>
      have hlen : xs.length = ys.length := by simpa using h
      rw [xorAccumulate, ih ys _ hlen, accumulate_eq_zero]
      constructor
      · rintro ⟨⟨hv, hxy⟩, hrest⟩
        exact ⟨hv, by rw [hxy, hrest]⟩
      · rintro ⟨hv, hcons⟩
        injection hcons with h1 h2
        exact ⟨⟨hv, h1⟩, h2⟩

theorem ConstantTimeByteEq_zero (v : Byte) : ConstantTimeByteEq v 0 = 1 ↔ v = 0 := by
  have hv := v.isLt
  have h0 : v.val ^^^ (0 : Byte).val = v.val := by
    show v.val ^^^ 0 = v.val
    simp
  unfold ConstantTimeByteEq
  rw [h0]
  constructor
  · intro h
    apply Fin.ext
    show v.val = 0
    omega
  · intro h
    subst h
    rfl

theorem ConstantTimeCompare_eq_one (x y : List Byte) : ConstantTimeCompare x y = 1 ↔ x = y := by
  unfold ConstantTimeCompare
  by_cases hlen : x.length = y.length
  · rw [if_neg (by simpa using hlen), ConstantTimeByteEq_zero, xorAccumulate_eq_zero x y 0 hlen]
    simp
  · rw [if_pos hlen]
    constructor
    · intro h; exact absurd h (by decide)
    · intro h; exact absurd (by rw [h]) hlen

theorem CompareBytes_iff (idKey : IDKeyFn) (a : Argon2Digest) (c : List Byte) :
    (CompareBytes idKey a c).1 = true ↔
      a.Digest = idKey c a.Salt a.iterations a.memory a.threads a.keyLength := by
  simp [CompareBytes, ConstantTimeCompare_eq_one]

/-! ## Facts about digest generation -/

theorem GenerateDigest_success (idKey : IDKeyFn) (rnd : RandSource) (a : Argon2Digest)
    (raw : List Byte) (h : rnd.failure = none) :
    GenerateDigest idKey rnd a raw =
      ({ a with
          Salt := (List.range a.saltLength).map rnd.stream,
          Digest := idKey raw ((List.range a.saltLength).map rnd.stream) a.iterations a.memory
            a.threads a.keyLength }, none) := by
  simp [GenerateDigest, generateSalt, RandSource.Read, h]

theorem sampleIDKey_length : IDKeyLength sampleIDKey := by
  intro password salt time memory threads keyLen
  simp [sampleIDKey]

/-! ## Properties of the specification -/

/-- C1: a record built by `NewFromBytes(S)` with default parameters and a
successful salt generation survives the round trip through its encoded form:
`NewFromEncoded(r.String())` returns no error and the decoded record accepts
`S`. The primitive is assumed to return `keyLen` bytes, as `argon2.IDKey`
does. -/
theorem roundtrip_encoded_accepts_secret (idKey : IDKeyFn) (rnd : RandSource) (S : List Byte)
    (hprim : IDKeyLength idKey) (hrnd : rnd.failure = none) :
    ∃ d, NewFromEncoded (String_ (NewFromBytes idKey rnd S)) = .ok d ∧
      (Compare idKey d S).1 = true := by
  refine ⟨decodedOf (NewFromBytes idKey rnd S), ?_, ?_⟩
  · apply NewFromEncoded_String <;>
      simp [NewFromBytes, GenerateDigest_success _ _ _ _ hrnd, New]
  · rw [Compare, CompareBytes_iff]
    simp [NewFromBytes, GenerateDigest_success _ _ _ _ hrnd, New, decodedOf, toBytes,
      hprim _ _ _ _ _ _]

/-- C1 at the sample primitive, the sample random source and the secret `test`. -/
theorem roundtrip_encoded_accepts_secret_witness :
    IDKeyLength sampleIDKey ∧ sampleRand.failure = none ∧
      ∃ d, NewFromEncoded (String_ (NewFromBytes sampleIDKey sampleRand [116, 101, 115, 116]))
          = .ok d ∧ (Compare sampleIDKey d [116, 101, 115, 116]).1 = true :=
  ⟨sampleIDKey_length, rfl,
    roundtrip_encoded_accepts_secret sampleIDKey sampleRand [116, 101, 115, 116]
      sampleIDKey_length rfl⟩

/-- C2: `CompareBytes(c)` is true exactly when the digest derived from `c` with
the stored salt and parameters has the length of the stored digest and agrees
with it at every index; a length mismatch gives false; the record (its salt
included) is left as it was; and `Compare(text)` is `CompareBytes` of the bytes
of `text`. -/
theorem compareBytes_spec (idKey : IDKeyFn) (a : Argon2Digest) (c : List Byte)
    (text : GoString) :
    ((CompareBytes idKey a c).1 = true ↔
        ((idKey c a.Salt a.iterations a.memory a.threads a.keyLength).length = a.Digest.length ∧
          ∀ i : Nat, (idKey c a.Salt a.iterations a.memory a.threads a.keyLength)[i]? =
            a.Digest[i]?)) ∧
      ((idKey c a.Salt a.iterations a.memory a.threads a.keyLength).length ≠ a.Digest.length →
        (CompareBytes idKey a c).1 = false) ∧
      ((CompareBytes idKey a c).1 = false ↔
        idKey c a.Salt a.iterations a.memory a.threads a.keyLength ≠ a.Digest) ∧
      (CompareBytes idKey a c).2 = a ∧
      Compare idKey a text = CompareBytes idKey a (toBytes text) := by
  have hiff := CompareBytes_iff idKey a c
  refine ⟨?_, ?_, ?_, rfl, rfl⟩
  · rw [hiff]
    constructor
    · intro h
      rw [← h]
      exact ⟨rfl, fun _ => rfl⟩
    · rintro ⟨_, h⟩
      exact (List.ext_getElem? h).symm
  · intro hlen
    rw [← Bool.not_eq_true, hiff]
    intro h
    exact hlen (by rw [← h])
  · rw [← Bool.not_eq_true, hiff]
    exact ⟨fun h e => h e.symm, fun h e => h e.symm⟩

/-- C3: when salt generation succeeds, `GenerateDigest(S)` returns no error and
the record it leaves accepts `S`; so do the records of `NewFromBytes(S)` and
`NewFromString(S)`. -/
theorem generated_record_accepts_secret (idKey : IDKeyFn) (rnd : RandSource)
    (a : Argon2Digest) (S : List Byte) (hrnd : rnd.failure = none) :
    (GenerateDigest idKey rnd a S).2 = none ∧
      (Compare idKey (GenerateDigest idKey rnd a S).1 S).1 = true ∧
      (Compare idKey (NewFromBytes idKey rnd S) S).1 = true ∧
      (Compare idKey (NewFromString idKey rnd S) S).1 = true := by
  refine ⟨?_, ?_, ?_, ?_⟩
  · rw [GenerateDigest_success _ _ _ _ hrnd]
  · rw [Compare, CompareBytes_iff, GenerateDigest_success _ _ _ _ hrnd]
    rfl
  · rw [Compare, CompareBytes_iff, NewFromBytes, GenerateDigest_success _ _ _ _ hrnd]
    rfl
  · rw [Compare, CompareBytes_iff, NewFromString, NewFromBytes,
      GenerateDigest_success _ _ _ _ hrnd]

/-- C3 at the sample primitive, the sample random source and the secret `test`. -/
theorem generated_record_accepts_secret_witness :
    sampleRand.failure = none ∧
      (GenerateDigest sampleIDKey sampleRand New [116, 101, 115, 116]).2 = none ∧
      (Compare sampleIDKey (GenerateDigest sampleIDKey sampleRand New [116, 101, 115, 116]).1
        [116, 101, 115, 116]).1 = true ∧
      (Compare sampleIDKey (NewFromBytes sampleIDKey sampleRand [116, 101, 115, 116])
        [116, 101, 115, 116]).1 = true ∧
      (Compare sampleIDKey (NewFromString sampleIDKey sampleRand [116, 101, 115, 116])
        [116, 101, 115, 116]).1 = true :=
  ⟨rfl, generated_record_accepts_secret sampleIDKey sampleRand New [116, 101, 115, 116] rfl⟩

/-- C4: a record generated from `S1` (salt generation succeeding) rejects every
secret `S2` for which the primitive, under the stored salt and parameters,
gives an output different from the one for `S1`; in particular the record of
`NewFromString(S1)`, which is the one generated from the default record. -/
theorem generated_record_rejects_other_secret (idKey : IDKeyFn) (rnd : RandSource)
    (a : Argon2Digest) (S1 S2 : List Byte) (hrnd : rnd.failure = none)
    (hne : idKey S1 (GenerateDigest idKey rnd a S1).1.Salt
          (GenerateDigest idKey rnd a S1).1.iterations (GenerateDigest idKey rnd a S1).1.memory
          (GenerateDigest idKey rnd a S1).1.threads (GenerateDigest idKey rnd a S1).1.keyLength ≠
        idKey S2 (GenerateDigest idKey rnd a S1).1.Salt
          (GenerateDigest idKey rnd a S1).1.iterations (GenerateDigest idKey rnd a S1).1.memory
          (GenerateDigest idKey rnd a S1).1.threads (GenerateDigest idKey rnd a S1).1.keyLength) :
    (Compare idKey (GenerateDigest idKey rnd a S1).1 S2).1 = false ∧
      (a = New → (Compare idKey (NewFromString idKey rnd S1) S2).1 = false) := by
  have key : (Compare idKey (GenerateDigest idKey rnd a S1).1 S2).1 = false := by
    rw [← Bool.not_eq_true, Compare, CompareBytes_iff]
    rw [GenerateDigest_success _ _ _ _ hrnd] at hne ⊢
    exact hne
  refine ⟨key, ?_⟩
  intro ha
  subst ha
  exact key

/-- C4 at the sample primitive: a record generated from `password123` rejects
`p@ssword123`. -/
theorem generated_record_rejects_other_secret_witness :
    (Compare sampleIDKey (GenerateDigest sampleIDKey sampleRand New
        (str "password123")).1 (str "p@ssword123")).1 = false ∧
      (New = New → (Compare sampleIDKey (NewFromString sampleIDKey sampleRand
        (str "password123")) (str "p@ssword123")).1 = false) :=
  generated_record_rejects_other_secret sampleIDKey sampleRand New (str "password123")
    (str "p@ssword123") rfl (by decide)

theorem length_longSalt : longSalt.length = 2 ^ 32 := by
  unfold longSalt
  exact List.length_replicate (2 ^ 32) (0 : Byte)

theorem longSaltRecord_Salt : longSaltRecord.Salt = longSalt := rfl

theorem decodedOf_saltLength (a : Argon2Digest) :
    (decodedOf a).saltLength = a.Salt.length % 2 ^ 32 := rfl

theorem decodedOf_longSaltRecord : (decodedOf longSaltRecord).saltLength = 0 := by
  rw [decodedOf_saltLength, longSaltRecord_Salt, length_longSalt]
  decide

/-- C5 (as stated, refuted): a record whose salt has `2 ^ 32` bytes is encoded
and decoded without error, but the decoded `saltLength` is `0`, not the length
of the salt: the length is stored in a `uint32`. -/
theorem decode_encode_saltLength_counterexample :
    ∃ d, NewFromEncoded (String_ longSaltRecord) = .ok d ∧
      d.saltLength = 0 ∧ d.saltLength ≠ longSaltRecord.Salt.length := by
  refine ⟨decodedOf longSaltRecord,
    NewFromEncoded_String _ (by decide) (by decide) (by decide), decodedOf_longSaltRecord, ?_⟩
  rw [decodedOf_longSaltRecord, longSaltRecord_Salt, length_longSalt]
  decide

/-- C5 (amended): for every record whose cost parameters fit their types,
`NewFromEncoded(r.String())` succeeds with the same memory, iterations,
threads, salt and digest; `saltLength` and `keyLength` are the lengths of salt
and digest reduced modulo `2 ^ 32` (so equal to them below `2 ^ 32`); and the
decoded record has the same encoded text. -/
theorem decode_encode_fields (r : Argon2Digest) (hm : r.memory < 2 ^ 32)
    (ht : r.iterations < 2 ^ 32) (hp : r.threads < 2 ^ 8) :
    ∃ d, NewFromEncoded (String_ r) = .ok d ∧
      d.memory = r.memory ∧ d.iterations = r.iterations ∧ d.threads = r.threads ∧
      d.Salt = r.Salt ∧ d.Digest = r.Digest ∧
      d.saltLength = r.Salt.length % 2 ^ 32 ∧ d.keyLength = r.Digest.length % 2 ^ 32 ∧
      (r.Salt.length < 2 ^ 32 → d.saltLength = r.Salt.length) ∧
      (r.Digest.length < 2 ^ 32 → d.keyLength = r.Digest.length) ∧
      String_ d = String_ r := by
  refine ⟨decodedOf r, NewFromEncoded_String r hm ht hp, rfl, rfl, rfl, rfl, rfl, rfl, rfl,
    ?_, ?_, rfl⟩
  · intro h
    exact Nat.mod_eq_of_lt h
  · intro h
    exact Nat.mod_eq_of_lt h

/-- C5 (amended) at the default record with a salt of four and a digest of three
bytes. -/
theorem decode_encode_fields_witness :
    ∃ d, NewFromEncoded (String_ { New with Salt := [1, 2, 3, 4], Digest := [255, 254, 0] })
        = .ok d ∧
      d.memory = 32768 ∧ d.iterations = 3 ∧ d.threads = 4 ∧
      d.Salt = [1, 2, 3, 4] ∧ d.Digest = [255, 254, 0] ∧
      d.saltLength = 4 % 2 ^ 32 ∧ d.keyLength = 3 % 2 ^ 32 ∧
      (4 < 2 ^ 32 → d.saltLength = 4) ∧ (3 < 2 ^ 32 → d.keyLength = 3) ∧
      String_ d = String_ { New with Salt := [1, 2, 3, 4], Digest := [255, 254, 0] } :=
  decode_encode_fields { New with Salt := [1, 2, 3, 4], Digest := [255, 254, 0] }
    (by decide) (by decide) (by decide)

/-- C7: the encoded text of every record has exactly five `$`; split on `$` it
gives the six segments: empty, `argon2id`, `v=` with the decimal version,
`m=..,t=..,p=..` with decimal numbers, and the base64 texts of salt and digest,
whose characters are all in the standard alphabet (so neither `=` nor `$`). -/
theorem String_format_valid (r : Argon2Digest) :
    (String_ r).count dollar = 5 ∧
      (Split dollar (String_ r)).length = 6 ∧
      Split dollar (String_ r) =
        [[], str "argon2id", str "v=" ++ decimal 19,
          str "m=" ++ decimal r.memory ++ str ",t=" ++ decimal r.iterations ++ str ",p=" ++
            decimal r.threads,
          b64Encode r.Salt, b64Encode r.Digest] ∧
      (∀ c ∈ decimal 19 ++ decimal r.memory ++ decimal r.iterations ++ decimal r.threads,
        48 ≤ c.val ∧ c.val ≤ 57) ∧
      (∀ c ∈ b64Encode r.Salt ++ b64Encode r.Digest,
        InAlphabet c ∧ c.val ≠ 61 ∧ c.val ≠ 36) := by
  have hsplit := Split_String r
  have hlen : (Split dollar (String_ r)).length = 6 := by rw [hsplit]; rfl
  refine ⟨?_, hlen, ?_, ?_, ?_⟩
  · have := length_Split dollar (String_ r)
    omega
  · rw [hsplit]
    rfl
  · intro c hc
    simp only [List.mem_append] at hc
    rcases hc with ((h | h) | h) | h <;> exact decimal_mem _ c h
  · intro c hc
    have hin : InAlphabet c := by
      simp only [List.mem_append] at hc
      rcases hc with h | h <;> exact b64Encode_inAlphabet _ c h
    refine ⟨hin, ?_, ?_⟩ <;>
    · intro h
      unfold InAlphabet at hin
      omega

/-- C8: `NewFromEncoded` returns `ErrInvalidHash` exactly for the inputs whose
split on `$` does not have six segments, that is the inputs that do not contain
exactly five `$`; the empty string is one of them. -/
theorem invalid_hash_iff (s : GoString) :
    (NewFromEncoded s = .error .ErrInvalidHash ↔ (Split dollar s).length ≠ 6) ∧
      (NewFromEncoded s = .error .ErrInvalidHash ↔ s.count dollar ≠ 5) ∧
      NewFromEncoded [] = .error .ErrInvalidHash := by
  have key : NewFromEncoded s = .error .ErrInvalidHash ↔ (Split dollar s).length ≠ 6 := by
    constructor
    · intro h hlen
      unfold NewFromEncoded at h
      simp only [hlen, ne_eq, not_true_eq_false, if_false] at h
      repeat' split at h
      all_goals exact absurd h (by simp)
    · intro hlen
      unfold NewFromEncoded
      simp only [ne_eq, hlen, not_false_eq_true, if_true]
  refine ⟨key, ?_, by decide⟩
  rw [key, length_Split]
  omega

theorem alphabetStd_getD_fin : ∀ i : Fin 64, alphabetStd.getD i.val 0 = encodeStd i.val := by
  decide

theorem alphabetStd_getD (x : Nat) (h : x < 64) : alphabetStd.getD x 0 = encodeStd x :=
  alphabetStd_getD_fin ⟨x, h⟩

theorem sextets_six (b0 b1 b2 b3 b4 b5 : Nat) (rest : List Nat) :
    sextets (b0 :: b1 :: b2 :: b3 :: b4 :: b5 :: rest) =
      (b0 * 32 + b1 * 16 + b2 * 8 + b3 * 4 + b4 * 2 + b5) :: sextets rest := by
  rw [sextets]
  simp only [bitsValue, List.foldl]
  congr 1
  omega

theorem encodeStd_eq_getD (e v : Nat) (h : v = e % 64) :
    encodeStd (e % 64) = alphabetStd.getD v 0 := by
  subst h
  exact (alphabetStd_getD _ (Nat.mod_lt e (by decide))).symm

theorem b64Encode_eq_spec_one (a : Byte) : b64Encode [a] = b64Spec [a] := by
  have ha := a.isLt
  simp only [b64Encode, b64Spec, List.flatMap_cons, List.flatMap_nil, List.append_nil,
    bitsOfByte, sextets_six]
  simp only [sextets, bitsValue, List.length_cons, List.length_nil, List.replicate,
    List.cons_append, List.nil_append, List.foldl, List.map_cons, List.map_nil]
  refine congrArg₂ List.cons ?_ (congrArg₂ List.cons ?_ rfl)
  · apply encodeStd_eq_getD
    omega
  · apply encodeStd_eq_getD
    omega

theorem b64Encode_eq_spec_two (a b : Byte) : b64Encode [a, b] = b64Spec [a, b] := by
  have ha := a.isLt
  have hb := b.isLt
  simp only [b64Encode, b64Spec, List.flatMap_cons, List.flatMap_nil, List.append_nil,
    bitsOfByte, List.cons_append, List.nil_append, sextets_six]
  simp only [sextets, bitsValue, List.length_cons, List.length_nil, List.replicate,
    List.cons_append, List.nil_append, List.foldl, List.map_cons, List.map_nil]
  refine congrArg₂ List.cons ?_ (congrArg₂ List.cons ?_ (congrArg₂ List.cons ?_ rfl))
  · apply encodeStd_eq_getD
    omega
  · apply encodeStd_eq_getD
    omega
  · apply encodeStd_eq_getD
    omega

theorem b64Encode_eq_spec_three (a b c : Byte) (rest : List Byte)
    (ih : b64Encode rest = b64Spec rest) :
    b64Encode (a :: b :: c :: rest) = b64Spec (a :: b :: c :: rest) := by
  have ha := a.isLt
  have hb := b.isLt
  have hc := c.isLt
  simp only [b64Spec] at ih
  simp only [b64Encode, b64Spec, List.flatMap_cons, bitsOfByte, List.cons_append,
    List.nil_append, sextets_six, List.map_cons, ih]
  refine congrArg₂ List.cons ?_ (congrArg₂ List.cons ?_
    (congrArg₂ List.cons ?_ (congrArg₂ List.cons ?_ rfl)))
  · apply encodeStd_eq_getD
    omega
  · apply encodeStd_eq_getD
    omega
  · apply encodeStd_eq_getD
    omega
  · apply encodeStd_eq_getD
    omega

theorem b64Encode_eq_spec : ∀ bs : List Byte, b64Encode bs = b64Spec bs
  | [] => by simp [b64Encode, b64Spec, sextets]
  | [a] => b64Encode_eq_spec_one a
  | [a, b] => b64Encode_eq_spec_two a b
  | a :: b :: c :: rest => b64Encode_eq_spec_three a b c rest (b64Encode_eq_spec rest)

/-- C6: the encoded text of every record is the concatenation, in this order,
of `$argon2id$v=`, the decimal version 19, `$m=`, the decimal memory, `,t=`,
the decimal iterations, `,p=`, the decimal threads, `$`, the unpadded standard
base64 of the salt, `$`, and the unpadded standard base64 of the digest.
`String_` is a total function, so the text is defined for every record. -/
theorem String_is_concatenation (a : Argon2Digest) :
    String_ a =
      str "$argon2id$v=" ++ decimal 19 ++ str "$m=" ++ decimal a.memory ++ str ",t=" ++
        decimal a.iterations ++ str ",p=" ++ decimal a.threads ++ str "$" ++
        b64Spec a.Salt ++ str "$" ++ b64Spec a.Digest := by
  have h0 : str "$argon2id$v=" = [36, 97, 114, 103, 111, 110, 50, 105, 100, 36, 118, 61] := by
    decide
  have h1 : str "$m=" = [36, 109, 61] := by decide
  have h2 : str ",t=" = [44, 116, 61] := by decide
  have h3 : str ",p=" = [44, 112, 61] := by decide
  have h4 : str "$" = [36] := by decide
  have hv : decimalInt Version = decimal 19 := by simp [decimalInt, Version]
  rw [String_, str_format, h0, h1, h2, h3, h4, ← b64Encode_eq_spec, ← b64Encode_eq_spec]
  simp [Sprintf, formatVerb, decimalInt_ofNat, hv]

/-! ## The version segment -/

theorem doScanf_verb_general (fs : List Nat) (op : Operand) (ops : List Operand)
    (rs rest : List Nat) (x : Int) (hskip : SkipSpace rs = .ok rs)
    (h : scanOne op rs = .ok (x, rest)) :
    doScanf (37 :: 100 :: fs) (op :: ops) rs =
      match doScanf fs ops rest with
      | .error e => .error e
      | .ok xs => .ok (x :: xs) := by
  rw [doScanf_cons]
  simp only [if_true, hskip, h]

theorem runes_version_nonneg (k : Nat) :
    decodeRunes (str "v=" ++ decimal k) = 118 :: 61 :: (decimalRunes k ++ []) := by
  have h2 : str "v=" = [118, 61] := by decide
  have v2 : ([118, 61] : GoString).map Fin.val = [118, 61] := by decide
  rw [decodeRunes_ascii]
  · simp only [h2, decimalRunes, List.map_append, v2]
    simp
  · intro c hc
    simp only [h2, List.mem_append, List.mem_cons, List.not_mem_nil, or_false] at hc
    rcases hc with (h | h) | h
    · subst h; decide
    · subst h; decide
    · have hmem := decimal_mem _ c h
      omega

theorem runes_version_neg (k : Nat) :
    decodeRunes (str "v=" ++ 45 :: decimal k) = 118 :: 61 :: 45 :: (decimalRunes k ++ []) := by
  have h2 : str "v=" = [118, 61] := by decide
  rw [decodeRunes_ascii]
  · simp only [h2, decimalRunes, List.cons_append, List.nil_append, List.map_cons]
    simp
    decide
  · intro c hc
    simp only [h2, List.mem_append, List.mem_cons, List.not_mem_nil, or_false] at hc
    rcases hc with (h | h) | (h | h)
    · subst h; decide
    · subst h; decide
    · subst h; decide
    · have hmem := decimal_mem _ c h
      omega

theorem NoDigitHead_nil : NoDigitHead [] := by
  intro r rs h
  cases h

theorem Sscanf_version (n : Int) (hlo : -(2 ^ 63 : Int) ≤ n) (hhi : n < 2 ^ 63) :
    Sscanf (str "v=" ++ decimalInt n) (str "v=%d") [.int] = .ok [n] := by
  have hfmt : decodeRunes (str "v=%d") = [118, 61, 37, 100] := by decide
  have habs : n.natAbs ≤ 2 ^ 63 := by omega
  have hlen := length_decimal n.natAbs (by omega)
  by_cases hneg : n < 0
  · have hrunes := runes_version_neg n.natAbs
    have hn : -(n.natAbs : Int) = n := by omega
    have hscan : scanOne .int (45 :: decimalRunes n.natAbs ++ []) = .ok (n, []) := by
      have := scanInt_neg_decimal n.natAbs [] habs NoDigitHead_nil
      rw [hn] at this
      exact this
    have hskip : SkipSpace (45 :: decimalRunes n.natAbs ++ []) =
        .ok (45 :: decimalRunes n.natAbs ++ []) := by
      simp [SkipSpace, isSpace]
    rw [Sscanf, hfmt, decimalInt, if_pos hneg, hrunes, List.take_of_length_le (by
      simp only [List.length_cons, List.length_append, decimalRunes, List.length_map,
        List.length_nil, hugeWid]
      omega)]
    rw [doScanf_literal _ _ _ _ (by decide), doScanf_literal _ _ _ _ (by decide)]
    rw [show (45 :: (decimalRunes n.natAbs ++ [])) = (45 :: decimalRunes n.natAbs ++ []) from rfl,
      doScanf_verb_general _ _ _ _ _ _ hskip hscan]
    simp [doScanf]
  · have hrunes := runes_version_nonneg n.natAbs
    have hn : (n.natAbs : Int) = n := by omega
    have hscan : scanOne .int (decimalRunes n.natAbs ++ []) = .ok ((n.natAbs : Int), []) :=
      scanInt_decimal n.natAbs [] (by omega) NoDigitHead_nil
    rw [Sscanf, hfmt, decimalInt, if_neg hneg, hrunes, List.take_of_length_le (by
      simp only [List.length_cons, List.length_append, decimalRunes, List.length_map,
        List.length_nil, hugeWid]
      omega)]
    rw [doScanf_literal _ _ _ _ (by decide), doScanf_literal _ _ _ _ (by decide),
      doScanf_verb _ _ _ _ _ hscan]
    simp [doScanf, hn]

/-- C9 (as stated, refuted): `v=9223372036854775808` names an integer different
from 19, yet the input is not answered with `ErrIncompatibleVersion`: the
number does not fit an `int`, and `Sscanf` fails with a range error. -/
theorem version_gate_counterexample :
    Split dollar (str "$argon2id$v=9223372036854775808$m=1,t=1,p=1$$") =
        [[], str "argon2id", str "v=" ++ decimalInt 9223372036854775808,
          str "m=1,t=1,p=1", [], []] ∧
      (9223372036854775808 : Int) ≠ Version ∧
      NewFromEncoded (str "$argon2id$v=9223372036854775808$m=1,t=1,p=1$$") =
        .error (.scan .range) ∧
      NewFromEncoded (str "$argon2id$v=9223372036854775808$m=1,t=1,p=1$$") ≠
        .error .ErrIncompatibleVersion := by
  have hd : decimalInt 9223372036854775808 = str "9223372036854775808" := by
    simp [decimalInt, decimal]
    decide
  refine ⟨?_, by decide, by decide, by decide⟩
  rw [hd]
  decide

/-- C9 (amended): for every input of six segments whose third segment is `v=`
followed by the decimal text of an integer `n` in the range of `int`
(`-2^63 ≤ n < 2^63`) and different from the supported version 19,
`NewFromEncoded` returns `ErrIncompatibleVersion`, whatever the other segments
hold. -/
theorem version_gate (s s0 s1 s3 s4 s5 : GoString) (n : Int)
    (hsplit : Split dollar s = [s0, s1, str "v=" ++ decimalInt n, s3, s4, s5])
    (hne : n ≠ Version) (hlo : -(2 ^ 63 : Int) ≤ n) (hhi : n < 2 ^ 63) :
    NewFromEncoded s = .error .ErrIncompatibleVersion := by
  rw [NewFromEncoded, hsplit]
  simp only [List.length_cons, List.length_nil, List.getD_cons_succ, List.getD_cons_zero,
    Sscanf_version n hlo hhi]
  simp [hne]

/-- C9 (amended) at an encoded text that names version 16. -/
theorem version_gate_witness :
    NewFromEncoded (str "$argon2id$v=16$m=32768,t=3,p=4$c2FsdA$ZGlnZXN0") =
      .error .ErrIncompatibleVersion :=
  version_gate (str "$argon2id$v=16$m=32768,t=3,p=4$c2FsdA$ZGlnZXN0") [] (str "argon2id")
    (str "m=32768,t=3,p=4") (str "c2FsdA") (str "ZGlnZXN0") 16
    (by
      have hd : decimalInt 16 = str "16" := by
        simp [decimalInt, decimal]
        decide
      rw [hd]
      decide)
    (by decide) (by decide) (by decide)

/-! ## What a successful base64 decoding says about its input -/

set_option maxRecDepth 20000 in
theorem decodeMap_lt : ∀ c : Byte, decodeMap c ≠ 255 → decodeMap c < 64 := by
  decide

set_option maxRecDepth 20000 in
theorem encodeStd_decodeMap : ∀ c : Byte, decodeMap c ≠ 255 → encodeStd (decodeMap c) = c := by
  decide

set_option maxRecDepth 20000 in
theorem decodeMap_newline : ∀ c : Byte, c.val = 10 ∨ c.val = 13 → decodeMap c = 255 := by
  decide

theorem byte_val_mod (n : Nat) : (byte n).val = n % 256 := rfl

theorem b64DecodeLoop_stripNewlines (s : GoString) :
    ∀ dbuf : List Nat, b64DecodeLoop s dbuf = b64DecodeLoop (stripNewlines s) dbuf := by
  induction s with
  | nil => intro dbuf; rfl
  | cons c cs ih =>
    intro dbuf
    by_cases hnl : c.val = 10 ∨ c.val = 13
    · have hmap := decodeMap_newline c hnl
      have hstrip : stripNewlines (c :: cs) = stripNewlines cs := by
        simp only [stripNewlines, List.filter_cons]
        rw [if_neg]
        simp only [decide_eq_true_eq]
        omega
      rw [hstrip, b64DecodeLoop, if_neg (by simp [hmap]), if_pos hnl]
      exact ih dbuf
    · have hstrip : stripNewlines (c :: cs) = c :: stripNewlines cs := by
        simp only [stripNewlines, List.filter_cons]
        rw [if_pos]
        simp only [decide_eq_true_eq]
        omega
      rw [hstrip, b64DecodeLoop, b64DecodeLoop, ih [], ih (dbuf ++ [decodeMap c]), if_neg hnl,
        if_neg hnl]

theorem b64DecodeLoop_char (c : Byte) (cs : GoString) (dbuf : List Nat)
    (hc : decodeMap c ≠ 255) (hlen : dbuf.length ≠ 3) :
    b64DecodeLoop (c :: cs) dbuf = b64DecodeLoop cs (dbuf ++ [decodeMap c]) := by
  rw [b64DecodeLoop, if_pos hc, if_neg hlen]

theorem b64DecodeLoop_bad (c : Byte) (cs : GoString) (dbuf : List Nat)
    (hc : decodeMap c = 255) (hnl : ¬ (c.val = 10 ∨ c.val = 13)) :
    b64DecodeLoop (c :: cs) dbuf = none := by
  rw [b64DecodeLoop, if_neg (by simp [hc]), if_neg hnl]

theorem b64DecodeLoop_fourth (c : Byte) (cs : GoString) (d0 d1 d2 : Nat)
    (hc : decodeMap c ≠ 255) :
    b64DecodeLoop (c :: cs) [d0, d1, d2] =
      match b64DecodeLoop cs [] with
      | none => none
      | some more =>
        some (byte ((d0 * 262144 + d1 * 4096 + d2 * 64 + decodeMap c) / 65536) ::
          byte ((d0 * 262144 + d1 * 4096 + d2 * 64 + decodeMap c) / 256) ::
          byte (d0 * 262144 + d1 * 4096 + d2 * 64 + decodeMap c) :: more) := by
  rw [b64DecodeLoop, if_pos hc, if_pos (by rfl)]
  rfl

/-- A character that is not a newline and is read without error is in the
alphabet. -/
theorem decodeMap_ne_of_loop (c : Byte) (cs : GoString) (dbuf : List Nat) (bs : List Byte)
    (hnl : ¬ (c.val = 10 ∨ c.val = 13)) (h : b64DecodeLoop (c :: cs) dbuf = some bs) :
    decodeMap c ≠ 255 := by
  intro hc
  rw [b64DecodeLoop_bad c cs dbuf hc hnl] at h
  cases h

theorem encodeStd_eq_char (c : Byte) (idx : Nat) (hc : decodeMap c ≠ 255)
    (h : idx = decodeMap c) : encodeStd idx = c := by
  rw [h]
  exact encodeStd_decodeMap c hc

theorem b64Encode_of_decode_one (c0 : Byte) (bs : List Byte)
    (hnl : ¬ (c0.val = 10 ∨ c0.val = 13)) (h : b64DecodeLoop [c0] [] = some bs) : False := by
  have h0 := decodeMap_ne_of_loop c0 [] [] bs hnl h
  rw [b64DecodeLoop_char c0 [] [] h0 (by simp)] at h
  simp [b64DecodeLoop, finishQuantum] at h

theorem b64Encode_of_decode_two (c0 c1 : Byte) (bs : List Byte)
    (hnl0 : ¬ (c0.val = 10 ∨ c0.val = 13)) (hnl1 : ¬ (c1.val = 10 ∨ c1.val = 13))
    (h : b64DecodeLoop [c0, c1] [] = some bs) : b64Encode bs = [c0, c1] := by
  have h0 := decodeMap_ne_of_loop c0 _ _ bs hnl0 h
  rw [b64DecodeLoop_char c0 _ _ h0 (by simp)] at h
  have h1 := decodeMap_ne_of_loop c1 _ _ bs hnl1 h
  rw [b64DecodeLoop_char c1 _ _ h1 (by simp)] at h
  have l0 := decodeMap_lt c0 h0
  have l1 := decodeMap_lt c1 h1
  simp only [b64DecodeLoop, List.nil_append, List.cons_append, finishQuantum] at h
  split at h
  · cases h
  · next hbits =>
    injection h with h
    subst h
    simp only [b64Encode, byte_val_mod]
    refine congrArg₂ List.cons ?_ (congrArg₂ List.cons ?_ rfl)
    · apply encodeStd_eq_char _ _ h0
      omega
    · apply encodeStd_eq_char _ _ h1
      omega

theorem b64Encode_of_decode_three (c0 c1 c2 : Byte) (bs : List Byte)
    (hnl0 : ¬ (c0.val = 10 ∨ c0.val = 13)) (hnl1 : ¬ (c1.val = 10 ∨ c1.val = 13))
    (hnl2 : ¬ (c2.val = 10 ∨ c2.val = 13))
    (h : b64DecodeLoop [c0, c1, c2] [] = some bs) : b64Encode bs = [c0, c1, c2] := by
  have h0 := decodeMap_ne_of_loop c0 _ _ bs hnl0 h
  rw [b64DecodeLoop_char c0 _ _ h0 (by simp)] at h
  have h1 := decodeMap_ne_of_loop c1 _ _ bs hnl1 h
  rw [b64DecodeLoop_char c1 _ _ h1 (by simp)] at h
  have h2 := decodeMap_ne_of_loop c2 _ _ bs hnl2 h
  rw [b64DecodeLoop_char c2 _ _ h2 (by simp)] at h
  have l0 := decodeMap_lt c0 h0
  have l1 := decodeMap_lt c1 h1
  have l2 := decodeMap_lt c2 h2
  simp only [b64DecodeLoop, List.nil_append, List.cons_append, finishQuantum] at h
  split at h
  · cases h
  · next hbits =>
    injection h with h
    subst h
    simp only [b64Encode, byte_val_mod]
    refine congrArg₂ List.cons ?_ (congrArg₂ List.cons ?_ (congrArg₂ List.cons ?_ rfl))
    · apply encodeStd_eq_char _ _ h0
      omega
    · apply encodeStd_eq_char _ _ h1
      omega
    · apply encodeStd_eq_char _ _ h2
      omega

theorem b64Encode_of_decode_four (c0 c1 c2 c3 : Byte) (rest : GoString) (bs : List Byte)
    (hnl0 : ¬ (c0.val = 10 ∨ c0.val = 13)) (hnl1 : ¬ (c1.val = 10 ∨ c1.val = 13))
    (hnl2 : ¬ (c2.val = 10 ∨ c2.val = 13)) (hnl3 : ¬ (c3.val = 10 ∨ c3.val = 13))
    (ih : ∀ more, b64DecodeLoop rest [] = some more → b64Encode more = rest)
    (h : b64DecodeLoop (c0 :: c1 :: c2 :: c3 :: rest) [] = some bs) :
    b64Encode bs = c0 :: c1 :: c2 :: c3 :: rest := by
  have h0 := decodeMap_ne_of_loop c0 _ _ bs hnl0 h
  rw [b64DecodeLoop_char c0 _ _ h0 (by simp)] at h
  have h1 := decodeMap_ne_of_loop c1 _ _ bs hnl1 h
  rw [b64DecodeLoop_char c1 _ _ h1 (by simp)] at h
  have h2 := decodeMap_ne_of_loop c2 _ _ bs hnl2 h
  rw [b64DecodeLoop_char c2 _ _ h2 (by simp)] at h
  have h3 := decodeMap_ne_of_loop c3 _ _ bs hnl3 h
  simp only [List.nil_append, List.cons_append] at h
  rw [b64DecodeLoop_fourth c3 _ _ _ _ h3] at h
  have l0 := decodeMap_lt c0 h0
  have l1 := decodeMap_lt c1 h1
  have l2 := decodeMap_lt c2 h2
  have l3 := decodeMap_lt c3 h3
  cases hrest : b64DecodeLoop rest [] with
  | none => rw [hrest] at h; cases h
  | some more =>
    rw [hrest] at h
    injection h with h
    subst h
    simp only [b64Encode, byte_val_mod, ih more hrest]
    refine congrArg₂ List.cons ?_ (congrArg₂ List.cons ?_
      (congrArg₂ List.cons ?_ (congrArg₂ List.cons ?_ rfl)))
    · apply encodeStd_eq_char _ _ h0
      omega
    · apply encodeStd_eq_char _ _ h1
      omega
    · apply encodeStd_eq_char _ _ h2
      omega
    · apply encodeStd_eq_char _ _ h3
      omega

theorem b64Encode_of_decode_clean : ∀ (s : GoString),
    (∀ c ∈ s, ¬ (c.val = 10 ∨ c.val = 13)) →
      ∀ bs, b64DecodeLoop s [] = some bs → b64Encode bs = s
  | [], _, bs, h => by
    simp only [b64DecodeLoop, finishQuantum] at h
    injection h with h
    subst h
    rfl
  | [c0], hs, bs, h => (b64Encode_of_decode_one c0 bs (hs c0 (by simp)) h).elim
  | [c0, c1], hs, bs, h =>
    b64Encode_of_decode_two c0 c1 bs (hs c0 (by simp)) (hs c1 (by simp)) h
  | [c0, c1, c2], hs, bs, h =>
    b64Encode_of_decode_three c0 c1 c2 bs (hs c0 (by simp)) (hs c1 (by simp))
      (hs c2 (by simp)) h
  | c0 :: c1 :: c2 :: c3 :: rest, hs, bs, h =>
    b64Encode_of_decode_four c0 c1 c2 c3 rest bs (hs c0 (by simp)) (hs c1 (by simp))
      (hs c2 (by simp)) (hs c3 (by simp))
      (b64Encode_of_decode_clean rest (fun c hc => hs c (by simp [hc]))) h

/-- A successful strict decoding returns bytes whose base64 text is the input
without its carriage returns and line feeds. -/
theorem b64Encode_of_b64Decode (s : GoString) (bs : List Byte) (h : b64Decode s = some bs) :
    b64Encode bs = stripNewlines s := by
  rw [b64Decode, b64DecodeLoop_stripNewlines] at h
  refine b64Encode_of_decode_clean (stripNewlines s) ?_ bs h
  intro c hc
  simp only [stripNewlines, List.mem_filter, decide_eq_true_eq] at hc
  omega

/-! ## What a successful scan of the parameters says about its input -/

theorem SkipSpace_ok (rs : List Nat) :
    ∀ rs1, SkipSpace rs = .ok rs1 → ∃ sp, rs = sp ++ rs1 ∧ Blank sp := by
  induction rs with
  | nil =>
    intro rs1 h
    simp only [SkipSpace, Except.ok.injEq] at h
    subst h
    exact ⟨[], rfl, fun r hr => by simp at hr⟩
  | cons r rs ih =>
    intro rs1 h
    rw [SkipSpace] at h
    split at h
    · cases h
    · next hnl =>
      split at h
      · next hsp =>
        obtain ⟨sp, hrs, hblank⟩ := ih rs1 h
        refine ⟨r :: sp, by rw [hrs]; rfl, ?_⟩
        intro x hx
        rcases List.mem_cons.mp hx with hx | hx
        · subst hx; exact ⟨hsp, hnl⟩
        · exact hblank x hx
      · simp only [Except.ok.injEq] at h
        subst h
        exact ⟨[], rfl, fun r hr => by simp at hr⟩

theorem NoDigitHead_dropWhile (l : List Nat) : NoDigitHead (l.dropWhile isDigit) := by
  induction l with
  | nil => intro r rs h; simp at h
  | cons x xs ih =>
    by_cases hx : isDigit x = true
    · rw [List.dropWhile_cons_of_pos hx]
      exact ih
    · rw [List.dropWhile_cons_of_neg hx]
      intro r rs h
      injection h with h1 h2
      subst h1
      simpa using hx

theorem scanNumber_ok (rs tok rest : List Nat) (h : scanNumber rs = .ok (tok, rest)) :
    rs = tok ++ rest ∧ tok ≠ [] ∧ (∀ r ∈ tok, isDigit r = true) ∧ NoDigitHead rest := by
  cases rs with
  | nil => simp [scanNumber] at h
  | cons r rs0 =>
    rw [scanNumber] at h
    split at h
    · next hd =>
      simp only [Except.ok.injEq, Prod.mk.injEq] at h
      obtain ⟨h1, h2⟩ := h
      subst h1 h2
      refine ⟨?_, by simp, ?_, NoDigitHead_dropWhile rs0⟩
      · simp [List.takeWhile_append_dropWhile]
      · intro x hx
        rcases List.mem_cons.mp hx with hx | hx
        · subst hx; exact hd
        · exact (List.mem_takeWhile_imp hx)
    · cases h

theorem Blank_append (a b : List Nat) (ha : Blank a) (hb : Blank b) : Blank (a ++ b) := by
  intro r hr
  rcases List.mem_append.mp hr with h | h
  · exact ha r h
  · exact hb r h

theorem scanUint_ok (bitSize : Nat) (rs rest : List Nat) (x : Int)
    (h : scanUint bitSize rs = .ok (x, rest)) :
    ∃ sp tok v, rs = sp ++ (tok ++ rest) ∧ Blank sp ∧ NumberText tok v bitSize ∧
      x = (v : Int) ∧ NoDigitHead rest := by
  unfold scanUint at h
  split at h
  · cases h
  · cases h
  · next r rs0 hskip =>
    obtain ⟨sp, hrs, hblank⟩ := SkipSpace_ok rs _ hskip
    split at h
    · cases h
    · next tok rest1 hnum =>
      obtain ⟨hcat, hne, hdig, hnd⟩ := scanNumber_ok _ _ _ hnum
      split at h
      · cases h
      · next i hparse =>
        unfold ParseUint at hparse
        split at hparse
        · next h64 =>
          simp only [Except.ok.injEq] at hparse
          subst hparse
          split at h
          · next hfit =>
            simp only [Except.ok.injEq, Prod.mk.injEq] at h
            obtain ⟨h1, h2⟩ := h
            subst h2
            exact ⟨sp, tok, digitsValue tok, by rw [hrs, hcat], hblank,
              ⟨hne, hdig, rfl, hfit⟩, h1.symm, hnd⟩
          · cases h
        · cases hparse

theorem doScanf_literal_ok (f : Nat) (fs : List Nat) (ops : List Operand) (rs : List Nat)
    (xs : List Int) (hf : f ≠ 37) (h : doScanf (f :: fs) ops rs = .ok xs) :
    ∃ rs1, rs = f :: rs1 ∧ doScanf fs ops rs1 = .ok xs := by
  rw [doScanf_cons, if_neg hf] at h
  cases rs with
  | nil => cases h
  | cons r rs1 =>
    simp only at h
    split at h
    · next hfr => exact ⟨rs1, by rw [hfr], h⟩
    · cases h

theorem doScanf_verb_ok (fs : List Nat) (op : Operand) (ops : List Operand) (rs : List Nat)
    (xs : List Int) (h : doScanf (37 :: 100 :: fs) (op :: ops) rs = .ok xs) :
    ∃ sp rs1 x rs2 xs1, rs = sp ++ rs1 ∧ Blank sp ∧ scanOne op rs1 = .ok (x, rs2) ∧
      doScanf fs ops rs2 = .ok xs1 ∧ xs = x :: xs1 := by
  rw [doScanf_cons] at h
  simp only [if_true] at h
  split at h
  · cases h
  · next rs1 hskip =>
    obtain ⟨sp, hrs, hblank⟩ := SkipSpace_ok rs rs1 hskip
    split at h
    · cases h
    · next x rs2 hone =>
      split at h
      · cases h
      · next xs1 hrest =>
        simp only [Except.ok.injEq] at h
        exact ⟨sp, rs1, x, rs2, xs1, hrs, hblank, hone, hrest, h.symm⟩

theorem doScanf_params_ok (rs : List Nat) (ps : List Int)
    (h : doScanf [109, 61, 37, 100, 44, 116, 61, 37, 100, 44, 112, 61, 37, 100]
      [.uint32, .uint32, .uint8] rs = .ok ps) :
    ∃ m t p : Nat, ps = [(m : Int), (t : Int), (p : Int)] ∧ ParamsText rs m t p := by
  obtain ⟨r1, e1, h⟩ := doScanf_literal_ok _ _ _ _ _ (by decide) h
  obtain ⟨r2, e2, h⟩ := doScanf_literal_ok _ _ _ _ _ (by decide) h
  obtain ⟨spa, r3, x1, r4, xs1, e3, b1, s1, h, ex1⟩ := doScanf_verb_ok _ _ _ _ _ h
  obtain ⟨spb, dm, m, e4, b1', n1, em, _⟩ := scanUint_ok 32 _ _ _ s1
  obtain ⟨r5, e5, h⟩ := doScanf_literal_ok _ _ _ _ _ (by decide) h
  obtain ⟨r6, e6, h⟩ := doScanf_literal_ok _ _ _ _ _ (by decide) h
  obtain ⟨r7, e7, h⟩ := doScanf_literal_ok _ _ _ _ _ (by decide) h
  obtain ⟨spc, r8, x2, r9, xs2, e8, b2, s2, h, ex2⟩ := doScanf_verb_ok _ _ _ _ _ h
  obtain ⟨spd, dt, t, e9, b2', n2, et, _⟩ := scanUint_ok 32 _ _ _ s2
  obtain ⟨r10, e10, h⟩ := doScanf_literal_ok _ _ _ _ _ (by decide) h
  obtain ⟨r11, e11, h⟩ := doScanf_literal_ok _ _ _ _ _ (by decide) h
  obtain ⟨r12, e12, h⟩ := doScanf_literal_ok _ _ _ _ _ (by decide) h
  obtain ⟨spe, r13, x3, r14, xs3, e13, b3, s3, h, ex3⟩ := doScanf_verb_ok _ _ _ _ _ h
  obtain ⟨spf, dp, p, e14, b3', n3, ep, nd⟩ := scanUint_ok 8 _ _ _ s3
  have hnil : xs3 = [] := by
    rw [doScanf] at h
    simpa using h.symm
  refine ⟨m, t, p, ?_, spa ++ spb, dm, spc ++ spd, dt, spe ++ spf, dp, r14, ?_,
    Blank_append _ _ b1 b1', Blank_append _ _ b2 b2', Blank_append _ _ b3 b3', n1, n2, n3, nd⟩
  · rw [ex1, ex2, ex3, hnil, em, et, ep]
  · rw [e1, e2, e3, e4, e5, e6, e7, e8, e9, e10, e11, e12, e13, e14]
    simp only [List.append_assoc]

theorem Sscanf_params_ok (s3 : GoString) (ps : List Int)
    (h : Sscanf s3 (str "m=%d,t=%d,p=%d") [.uint32, .uint32, .uint8] = .ok ps) :
    ∃ m t p : Nat, ps = [(m : Int), (t : Int), (p : Int)] ∧
      ParamsText ((decodeRunes s3).take hugeWid) m t p := by
  have hfmt : decodeRunes (str "m=%d,t=%d,p=%d") =
      [109, 61, 37, 100, 44, 116, 61, 37, 100, 44, 112, 61, 37, 100] := by decide
  rw [Sscanf, hfmt] at h
  exact doScanf_params_ok _ ps h

/-- What a returned record says about an input of six segments: the parameter
segment has the accepted shape and writes the memory, iterations and threads of
the record, and the salt and digest segments, newlines aside, are the base64
texts of its salt and digest. -/
theorem NewFromEncoded_ok (s s0 s1 s2 s3 s4 s5 : GoString) (d : Argon2Digest)
    (hsplit : Split dollar s = [s0, s1, s2, s3, s4, s5]) (h : NewFromEncoded s = .ok d) :
    ParamsText ((decodeRunes s3).take hugeWid) d.memory d.iterations d.threads ∧
      b64Encode d.Salt = stripNewlines s4 ∧ b64Encode d.Digest = stripNewlines s5 := by
  rw [NewFromEncoded, hsplit] at h
  simp only [List.length_cons, List.length_nil, List.getD_cons_succ, List.getD_cons_zero] at h
  rw [if_neg (by decide)] at h
  split at h
  · cases h
  · split at h
    · cases h
    · split at h
      · cases h
      · next ps hps =>
        obtain ⟨m, t, p, hlist, hform⟩ := Sscanf_params_ok s3 ps hps
        split at h
        · cases h
        · next salt hsalt =>
          split at h
          · cases h
          · next digest hdigest =>
            simp only [Except.ok.injEq] at h
            subst h
            subst hlist
            exact ⟨by simpa using hform, b64Encode_of_b64Decode _ _ hsalt,
              b64Encode_of_b64Decode _ _ hdigest⟩

/-! ## Malformed fields -/

theorem IsParamSegment_getLast (seg : GoString) (h : IsParamSegment seg) :
    ∃ c, seg.getLast? = some c ∧ 48 ≤ c.val ∧ c.val ≤ 57 := by
  obtain ⟨dm, dt, dp, hseg, _, _, hdp, hdig, _⟩ := h
  cases hlast : dp.getLast? with
  | none => exact absurd (List.getLast?_eq_none_iff.mp hlast) hdp
  | some c =>
    refine ⟨c, ?_, hdig c (by simp [List.mem_of_getLast?_eq_some hlast])⟩
    rw [hseg, List.getLast?_append, hlast]
    rfl

theorem IsRawStdBase64_inAlphabet (seg : GoString) (h : IsRawStdBase64 seg) :
    ∀ c ∈ seg, InAlphabet c := by
  obtain ⟨bs, hbs⟩ := h
  rw [← hbs, ← b64Encode_eq_spec]
  exact b64Encode_inAlphabet bs

/-- C10 (as stated, refuted): a parameter segment with text after the third
number (`m=1,t=2,p=3junk`) is not of the form `m=<int>,t=<int>,p=<int>`, and a
salt segment with a line feed (`AAAA\n`) is not valid base64, yet both inputs
are decoded into a record. -/
theorem malformed_fields_counterexample :
    (¬ IsParamSegment (str "m=1,t=2,p=3junk") ∧
      Split dollar (str "$argon2id$v=19$m=1,t=2,p=3junk$AAAA$AAAA") =
        [[], str "argon2id", str "v=19", str "m=1,t=2,p=3junk", str "AAAA", str "AAAA"] ∧
      NewFromEncoded (str "$argon2id$v=19$m=1,t=2,p=3junk$AAAA$AAAA") =
        .ok { iterations := 2, memory := 1, threads := 3, keyLength := 3, saltLength := 3,
              Digest := [0, 0, 0], Salt := [0, 0, 0] }) ∧
    (¬ IsRawStdBase64 (str "AAAA\n") ∧
      Split dollar (str "$argon2id$v=19$m=1,t=2,p=3$AAAA\n$AAAA") =
        [[], str "argon2id", str "v=19", str "m=1,t=2,p=3", str "AAAA\n", str "AAAA"] ∧
      NewFromEncoded (str "$argon2id$v=19$m=1,t=2,p=3$AAAA\n$AAAA") =
        .ok { iterations := 2, memory := 1, threads := 3, keyLength := 3, saltLength := 3,
              Digest := [0, 0, 0], Salt := [0, 0, 0] }) := by
  refine ⟨⟨?_, by decide, by decide⟩, ⟨?_, by decide, by decide⟩⟩
  · intro h
    obtain ⟨c, hc, hlo, hhi⟩ := IsParamSegment_getLast _ h
    have hlast : (str "m=1,t=2,p=3junk").getLast? = some 107 := by decide
    rw [hlast] at hc
    injection hc with hc
    subst hc
    revert hhi
    decide
  · intro h
    have := IsRawStdBase64_inAlphabet _ h 10 (by decide)
    revert this
    decide

/-- C10 (amended): for every input of six segments, a record that is returned
carries the values written in the segments: the first `2^30` runes of the
parameter segment have the shape `m=<number>,t=<number>,p=<number>` (white
space allowed before a number, any text allowed after the third number) with
the record's memory, iterations and threads as the numbers, in range for
`uint32`, `uint32`, `uint8`; and the salt and digest segments, carriage returns
and line feeds removed, are the unpadded standard base64 of the record's salt
and digest. Hence an input whose parameter segment has not that shape, or whose
salt or digest segment, newlines removed, is not valid unpadded standard
base64, is answered with an error. -/
theorem malformed_fields_rejected (s s0 s1 s2 s3 s4 s5 : GoString)
    (hsplit : Split dollar s = [s0, s1, s2, s3, s4, s5]) :
    (∀ d, NewFromEncoded s = .ok d →
        ParamsText ((decodeRunes s3).take hugeWid) d.memory d.iterations d.threads ∧
          b64Spec d.Salt = stripNewlines s4 ∧ b64Spec d.Digest = stripNewlines s5) ∧
      ((¬ ∃ m t p, ParamsText ((decodeRunes s3).take hugeWid) m t p) ∨
          ¬ IsRawStdBase64 (stripNewlines s4) ∨ ¬ IsRawStdBase64 (stripNewlines s5) →
        ∃ e, NewFromEncoded s = .error e) := by
  have key : ∀ d, NewFromEncoded s = .ok d →
      ParamsText ((decodeRunes s3).take hugeWid) d.memory d.iterations d.threads ∧
        b64Spec d.Salt = stripNewlines s4 ∧ b64Spec d.Digest = stripNewlines s5 := by
    intro d hd
    have h := NewFromEncoded_ok s s0 s1 s2 s3 s4 s5 d hsplit hd
    rw [b64Encode_eq_spec, b64Encode_eq_spec] at h
    exact h
  refine ⟨key, ?_⟩
  intro hbad
  cases hres : NewFromEncoded s with
  | error e => exact ⟨e, rfl⟩
  | ok d =>
    obtain ⟨hp, hsalt, hdigest⟩ := key d hres
    rcases hbad with h | h | h
    · exact absurd ⟨_, _, _, hp⟩ h
    · exact absurd ⟨_, hsalt⟩ h
    · exact absurd ⟨_, hdigest⟩ h

/-- C10 (amended) at an encoded text whose salt segment carries a padding
character. -/
theorem malformed_fields_rejected_witness :
    ∃ e, NewFromEncoded (str "$argon2id$v=19$m=1,t=2,p=3$AA=$AAAA") = .error e :=
  (malformed_fields_rejected (str "$argon2id$v=19$m=1,t=2,p=3$AA=$AAAA") [] (str "argon2id")
    (str "v=19") (str "m=1,t=2,p=3") (str "AA=") (str "AAAA") (by decide)).2
    (Or.inr (Or.inl (fun h => by
      have hin := IsRawStdBase64_inAlphabet _ h 61 (by decide)
      revert hin
      decide)))

/-! ## What a returned record says about its text -/

theorem list_of_length_six {α : Type} (l : List α) (h : l.length = 6) :
    ∃ a b c d e f, l = [a, b, c, d, e, f] := by
  match l, h with
  | [a, b, c, d, e, f], _ => exact ⟨a, b, c, d, e, f, rfl⟩

theorem NewFromEncoded_split (s : GoString) (d : Argon2Digest)
    (h : NewFromEncoded s = .ok d) :
    ∃ s0 s1 s2 s3 s4 s5, Split dollar s = [s0, s1, s2, s3, s4, s5] := by
  apply list_of_length_six
  by_contra hlen
  rw [NewFromEncoded] at h
  simp only [ne_eq, hlen, not_false_eq_true, if_true] at h
  cases h

/-- A returned record holds the decoded salt and digest, and its two lengths are
their lengths reduced to 32 bits. -/
theorem NewFromEncoded_lengths (s s0 s1 s2 s3 s4 s5 : GoString) (d : Argon2Digest)
    (hsplit : Split dollar s = [s0, s1, s2, s3, s4, s5]) (h : NewFromEncoded s = .ok d) :
    b64Decode s4 = some d.Salt ∧ b64Decode s5 = some d.Digest ∧
      d.saltLength = d.Salt.length % 2 ^ 32 ∧ d.keyLength = d.Digest.length % 2 ^ 32 := by
  rw [NewFromEncoded, hsplit] at h
  simp only [List.length_cons, List.length_nil, List.getD_cons_succ, List.getD_cons_zero] at h
  rw [if_neg (by decide)] at h
  split at h
  · cases h
  · split at h
    · cases h
    · split at h
      · cases h
      · split at h
        · cases h
        · next salt hsalt =>
          split at h
          · cases h
          · next digest hdigest =>
            simp only [Except.ok.injEq] at h
            subst h
            exact ⟨hsalt, hdigest, rfl, rfl⟩

/-- The cost parameters of a returned record fit their types. -/
theorem NewFromEncoded_range (s : GoString) (d : Argon2Digest)
    (h : NewFromEncoded s = .ok d) :
    d.memory < 2 ^ 32 ∧ d.iterations < 2 ^ 32 ∧ d.threads < 2 ^ 8 := by
  obtain ⟨s0, s1, s2, s3, s4, s5, hsplit⟩ := NewFromEncoded_split s d h
  obtain ⟨hp, _, _⟩ := NewFromEncoded_ok s s0 s1 s2 s3 s4 s5 d hsplit h
  obtain ⟨_, _, _, _, _, _, _, _, _, _, _, hm, ht, hpp, _⟩ := hp
  exact ⟨hm.2.2.2, ht.2.2.2, hpp.2.2.2⟩

theorem decodedOf_of_ok (s : GoString) (d : Argon2Digest) (h : NewFromEncoded s = .ok d) :
    decodedOf d = d := by
  obtain ⟨s0, s1, s2, s3, s4, s5, hsplit⟩ := NewFromEncoded_split s d h
  obtain ⟨_, _, hs, hk⟩ := NewFromEncoded_lengths s s0 s1 s2 s3 s4 s5 d hsplit h
  cases d
  simp only [decodedOf] at hs hk ⊢
  simp only [Argon2Digest.mk.injEq, true_and, and_true]
  exact ⟨hk.symm, hs.symm⟩

/-! ## Canonical text -/

/-- C11 (as stated, refuted): the text `$argon2id$v=19$m=1,t=2,p=3junk$AAAA$AAAA`
is accepted, but the text of the decoded record is
`$argon2id$v=19$m=1,t=2,p=3$AAAA$AAAA`, not the input. -/
theorem canonical_text_counterexample :
    NewFromEncoded (str "$argon2id$v=19$m=1,t=2,p=3junk$AAAA$AAAA") =
        .ok smallRecord ∧
      String_ smallRecord =
        str "$argon2id$v=19$m=1,t=2,p=3$AAAA$AAAA" ∧
      String_ smallRecord ≠
        str "$argon2id$v=19$m=1,t=2,p=3junk$AAAA$AAAA" := by
  have htext : String_ smallRecord =
        str "$argon2id$v=19$m=1,t=2,p=3$AAAA$AAAA" := by
    have hp : paramSegment 1 2 3 = str "m=1,t=2,p=3" := by
      simp [paramSegment, decimal]
      decide
    have hv : versionSegment = str "v=19" := by
      rw [versionSegment, decimal_version]
      decide
    rw [String_segments]
    show dollar :: (str "argon2id" ++ dollar :: (versionSegment ++ dollar ::
      (paramSegment 1 2 3 ++ dollar :: (b64Encode [0, 0, 0] ++ dollar :: b64Encode [0, 0, 0]))))
        = str "$argon2id$v=19$m=1,t=2,p=3$AAAA$AAAA"
    rw [hp, hv]
    decide
  refine ⟨by decide, htext, ?_⟩
  rw [htext]
  decide

/-- C11 (amended): for every text `t` that `NewFromEncoded` accepts, with decoded
record `d`: decoding the text of `d` gives `d` again; the text of `d` equals `t`
exactly when `t` is itself the text of some record with parameters in range;
and in every case the text of `d` has the segments empty, `argon2id`, `v=19`,
the three parameters of `d` in decimal, and the salt and digest segments of `t`
without their carriage returns and line feeds. -/
theorem decoded_text_canonical (t : GoString) (d : Argon2Digest)
    (h : NewFromEncoded t = .ok d) :
    NewFromEncoded (String_ d) = .ok d ∧
      (String_ d = t ↔
        ∃ r : Argon2Digest, r.memory < 2 ^ 32 ∧ r.iterations < 2 ^ 32 ∧ r.threads < 2 ^ 8 ∧
          t = String_ r) ∧
      (∀ s0 s1 s2 s3 s4 s5, Split dollar t = [s0, s1, s2, s3, s4, s5] →
        Split dollar (String_ d) =
          [[], str "argon2id", str "v=" ++ decimal 19,
            str "m=" ++ decimal d.memory ++ str ",t=" ++ decimal d.iterations ++ str ",p=" ++
              decimal d.threads,
            stripNewlines s4, stripNewlines s5]) := by
  obtain ⟨hm, ht, hp⟩ := NewFromEncoded_range t d h
  have hagain : NewFromEncoded (String_ d) = .ok d := by
    rw [NewFromEncoded_String d hm ht hp, decodedOf_of_ok t d h]
  refine ⟨hagain, ?_, ?_⟩
  · constructor
    · intro heq
      exact ⟨d, hm, ht, hp, heq.symm⟩
    · rintro ⟨r, rm, rt, rp, hr⟩
      rw [hr, NewFromEncoded_String r rm rt rp] at h
      injection h with h
      rw [← h, hr]
      rfl
  · intro s0 s1 s2 s3 s4 s5 hsplit
    obtain ⟨_, hsalt, hdigest⟩ := NewFromEncoded_ok t s0 s1 s2 s3 s4 s5 d hsplit h
    rw [Split_String, hsalt, hdigest]
    rfl

/-- C11 (amended) at the accepted text `$argon2id$v=19$m=1,t=2,p=3junk$AAAA$AAAA`. -/
theorem decoded_text_canonical_witness :
    NewFromEncoded (String_ smallRecord) =
      .ok smallRecord :=
  (decoded_text_canonical (str "$argon2id$v=19$m=1,t=2,p=3junk$AAAA$AAAA")
    smallRecord (by decide)).1

/-! ## Lengths and ranges of the fields -/

theorem GenerateDigest_failure (idKey : IDKeyFn) (rnd : RandSource) (a : Argon2Digest)
    (raw : List Byte) (code : Nat) (h : rnd.failure = some code) :
    GenerateDigest idKey rnd a raw = (a, some (.randomSource code)) := by
  simp [GenerateDigest, generateSalt, RandSource.Read, h]

theorem GenerateDigest_error_none_iff (idKey : IDKeyFn) (rnd : RandSource) (a : Argon2Digest)
    (raw : List Byte) : (GenerateDigest idKey rnd a raw).2 = none ↔ rnd.failure = none := by
  cases hf : rnd.failure with
  | none => simp [GenerateDigest_success idKey rnd a raw hf]
  | some code => simp [GenerateDigest_failure idKey rnd a raw code hf]

theorem decodedOf_Salt (a : Argon2Digest) : (decodedOf a).Salt = a.Salt := rfl

/-- C12 (as stated, refuted): the text of a record whose salt has `2 ^ 32` bytes
is decoded without error into a record whose salt has `2 ^ 32` bytes and whose
`saltLength` is `0`. -/
theorem length_invariant_counterexample :
    ∃ d, NewFromEncoded (String_ longSaltRecord) = .ok d ∧
      d.Salt.length = 2 ^ 32 ∧ d.saltLength = 0 := by
  refine ⟨decodedOf longSaltRecord,
    NewFromEncoded_String _ (by decide) (by decide) (by decide), ?_, decodedOf_longSaltRecord⟩
  rw [decodedOf_Salt, longSaltRecord_Salt, length_longSalt]

/-- C12 (amended): after a successful `GenerateDigest` (the primitive returning
`keyLen` bytes) the digest has `keyLength` bytes and the salt `saltLength`
bytes; after a successful `NewFromEncoded`, `keyLength` and `saltLength` are the
lengths of the decoded digest and salt reduced modulo `2 ^ 32`, so they are
those lengths, and not the defaults, whenever digest and salt are shorter than
`2 ^ 32` bytes. -/
theorem length_invariant (idKey : IDKeyFn) (hprim : IDKeyLength idKey) :
    (∀ (rnd : RandSource) (a : Argon2Digest) (S : List Byte),
      (GenerateDigest idKey rnd a S).2 = none →
        (GenerateDigest idKey rnd a S).1.Digest.length =
            (GenerateDigest idKey rnd a S).1.keyLength ∧
          (GenerateDigest idKey rnd a S).1.Salt.length =
            (GenerateDigest idKey rnd a S).1.saltLength) ∧
      (∀ (s : GoString) (d : Argon2Digest), NewFromEncoded s = .ok d →
        d.keyLength = d.Digest.length % 2 ^ 32 ∧ d.saltLength = d.Salt.length % 2 ^ 32 ∧
          (d.Digest.length < 2 ^ 32 → d.Digest.length = d.keyLength) ∧
          (d.Salt.length < 2 ^ 32 → d.Salt.length = d.saltLength)) := by
  constructor
  · intro rnd a S hgen
    have hrnd := (GenerateDigest_error_none_iff idKey rnd a S).mp hgen
    rw [GenerateDigest_success idKey rnd a S hrnd]
    exact ⟨hprim _ _ _ _ _ _, by simp⟩
  · intro s d hdec
    obtain ⟨s0, s1, s2, s3, s4, s5, hsplit⟩ := NewFromEncoded_split s d hdec
    obtain ⟨_, _, hs, hk⟩ := NewFromEncoded_lengths s s0 s1 s2 s3 s4 s5 d hsplit hdec
    refine ⟨hk, hs, ?_, ?_⟩
    · intro h
      rw [hk, Nat.mod_eq_of_lt h]
    · intro h
      rw [hs, Nat.mod_eq_of_lt h]

/-- C12 (amended) at the sample collaborators and the encoded text of the small
record, whose salt and digest have three bytes. -/
theorem length_invariant_witness :
    ((GenerateDigest sampleIDKey sampleRand New [116]).1.Digest.length =
          (GenerateDigest sampleIDKey sampleRand New [116]).1.keyLength ∧
        (GenerateDigest sampleIDKey sampleRand New [116]).1.Salt.length =
          (GenerateDigest sampleIDKey sampleRand New [116]).1.saltLength) ∧
      (smallRecord.keyLength = smallRecord.Digest.length % 2 ^ 32 ∧
        smallRecord.saltLength = smallRecord.Salt.length % 2 ^ 32 ∧
        (smallRecord.Digest.length < 2 ^ 32 → smallRecord.Digest.length = smallRecord.keyLength) ∧
        (smallRecord.Salt.length < 2 ^ 32 → smallRecord.Salt.length = smallRecord.saltLength)) :=
  ⟨(length_invariant sampleIDKey sampleIDKey_length).1 sampleRand New [116] (by decide),
    (length_invariant sampleIDKey sampleIDKey_length).2
      (str "$argon2id$v=19$m=1,t=2,p=3$AAAA$AAAA") smallRecord (by decide)⟩

/-- C13 (as stated, refuted): the text `$argon2id$v=19$m=0,t=0,p=0$$` is accepted
and gives a record in which iterations, memory, threads, `keyLength` and
`saltLength` are all zero. -/
theorem positive_fields_counterexample :
    ∃ d, NewFromEncoded (str "$argon2id$v=19$m=0,t=0,p=0$$") = .ok d ∧
      d.iterations = 0 ∧ d.memory = 0 ∧ d.threads = 0 ∧ d.keyLength = 0 ∧ d.saltLength = 0 :=
  ⟨{ iterations := 0, memory := 0, threads := 0, keyLength := 0, saltLength := 0,
     Digest := [], Salt := [] }, by decide, rfl, rfl, rfl, rfl, rfl⟩

/-- C13 (amended): the records of `New`, `NewFromBytes` and `NewFromString` carry
the positive defaults 3, 32768, 4, 32 and 16 (whether or not salt generation
succeeds). In a record returned by `NewFromEncoded`, memory and iterations are
below `2 ^ 32`, threads is at most 255, `keyLength` is the length of the digest
modulo `2 ^ 32` and `saltLength` the length of the salt modulo `2 ^ 32` (hence
both below `2 ^ 32`). None of them is checked to be positive: every memory and
iterations below `2 ^ 32`, every threads up to 255 and every salt and digest,
zeros and empty sequences included, are the fields of the record returned for
some text. -/
theorem field_ranges (idKey : IDKeyFn) (rnd : RandSource) (raw : List Byte) :
    (New.iterations = 3 ∧ New.memory = 32768 ∧ New.threads = 4 ∧ New.keyLength = 32 ∧
        New.saltLength = 16) ∧
      ((NewFromBytes idKey rnd raw).iterations = 3 ∧ (NewFromBytes idKey rnd raw).memory = 32768 ∧
        (NewFromBytes idKey rnd raw).threads = 4 ∧ (NewFromBytes idKey rnd raw).keyLength = 32 ∧
        (NewFromBytes idKey rnd raw).saltLength = 16) ∧
      ((NewFromString idKey rnd raw).iterations = 3 ∧
        (NewFromString idKey rnd raw).memory = 32768 ∧
        (NewFromString idKey rnd raw).threads = 4 ∧ (NewFromString idKey rnd raw).keyLength = 32 ∧
        (NewFromString idKey rnd raw).saltLength = 16) ∧
      (∀ (s : GoString) (d : Argon2Digest), NewFromEncoded s = .ok d →
        d.memory < 2 ^ 32 ∧ d.iterations < 2 ^ 32 ∧ d.threads ≤ 255 ∧
          d.keyLength = d.Digest.length % 2 ^ 32 ∧ d.saltLength = d.Salt.length % 2 ^ 32 ∧
          d.keyLength < 2 ^ 32 ∧ d.saltLength < 2 ^ 32) ∧
      (∀ (m t p : Nat) (salt digest : List Byte), m < 2 ^ 32 → t < 2 ^ 32 → p ≤ 255 →
        ∃ s, NewFromEncoded s =
          .ok { iterations := t, memory := m, threads := p,
                keyLength := digest.length % 2 ^ 32, saltLength := salt.length % 2 ^ 32,
                Digest := digest, Salt := salt }) := by
  have hbytes : (NewFromBytes idKey rnd raw).iterations = 3 ∧
      (NewFromBytes idKey rnd raw).memory = 32768 ∧
      (NewFromBytes idKey rnd raw).threads = 4 ∧ (NewFromBytes idKey rnd raw).keyLength = 32 ∧
      (NewFromBytes idKey rnd raw).saltLength = 16 := by
    have hdef : NewFromBytes idKey rnd raw = (GenerateDigest idKey rnd New raw).1 := rfl
    rw [hdef]
    cases hf : rnd.failure with
    | none =>
      rw [GenerateDigest_success idKey rnd New raw hf]
      exact ⟨rfl, rfl, rfl, rfl, rfl⟩
    | some code =>
      rw [GenerateDigest_failure idKey rnd New raw code hf]
      exact ⟨rfl, rfl, rfl, rfl, rfl⟩
  refine ⟨⟨rfl, rfl, rfl, rfl, rfl⟩, hbytes, hbytes, ?_, ?_⟩
  · intro s d h
    obtain ⟨hm, ht, hp⟩ := NewFromEncoded_range s d h
    obtain ⟨s0, s1, s2, s3, s4, s5, hsplit⟩ := NewFromEncoded_split s d h
    obtain ⟨_, _, hs, hk⟩ := NewFromEncoded_lengths s s0 s1 s2 s3 s4 s5 d hsplit h
    refine ⟨hm, ht, by omega, hk, hs, ?_, ?_⟩
    · rw [hk]
      exact Nat.mod_lt _ (by decide)
    · rw [hs]
      exact Nat.mod_lt _ (by decide)
  · intro m t p salt digest hm ht hp
    have hp8 : p < 2 ^ 8 := by omega
    exact ⟨String_ (Argon2Digest.mk t m p 0 0 digest salt),
      NewFromEncoded_String (Argon2Digest.mk t m p 0 0 digest salt) hm ht hp8⟩

/-- C13 (amended) at the accepted text `$argon2id$v=19$m=0,t=0,p=0$$`, whose
record holds zeros only. -/
theorem field_ranges_witness :
    ∃ d, NewFromEncoded (str "$argon2id$v=19$m=0,t=0,p=0$$") = .ok d ∧
      (d.memory < 2 ^ 32 ∧ d.iterations < 2 ^ 32 ∧ d.threads ≤ 255 ∧
        d.keyLength = d.Digest.length % 2 ^ 32 ∧ d.saltLength = d.Salt.length % 2 ^ 32 ∧
        d.keyLength < 2 ^ 32 ∧ d.saltLength < 2 ^ 32) :=
  ⟨{ iterations := 0, memory := 0, threads := 0, keyLength := 0, saltLength := 0,
     Digest := [], Salt := [] }, by decide,
    (field_ranges sampleIDKey sampleRand []).2.2.2.1 (str "$argon2id$v=19$m=0,t=0,p=0$$")
      { iterations := 0, memory := 0, threads := 0, keyLength := 0, saltLength := 0,
        Digest := [], Salt := [] } (by decide)⟩

/-! ## Digest generation -/

/-- C14: a successful `GenerateDigest(secret)` sets the salt to the first
`saltLength` bytes of the random source, whatever the salt was before, sets the
digest to the primitive's output for the secret, this salt and the record's
iterations, memory, threads and `keyLength`, and leaves these five parameters
as they were; two runs with the same secret, the same random bytes and the same
parameters leave the same record, whatever salt and digest the records held
before. -/
theorem GenerateDigest_effect (idKey : IDKeyFn) (rnd : RandSource) (a : Argon2Digest)
    (S : List Byte) (hgen : (GenerateDigest idKey rnd a S).2 = none) :
    (GenerateDigest idKey rnd a S).1.Salt = (List.range a.saltLength).map rnd.stream ∧
      (GenerateDigest idKey rnd a S).1.Salt.length = a.saltLength ∧
      (GenerateDigest idKey rnd a S).1.Digest =
        idKey S (GenerateDigest idKey rnd a S).1.Salt a.iterations a.memory a.threads
          a.keyLength ∧
      (GenerateDigest idKey rnd a S).1.iterations = a.iterations ∧
      (GenerateDigest idKey rnd a S).1.memory = a.memory ∧
      (GenerateDigest idKey rnd a S).1.threads = a.threads ∧
      (GenerateDigest idKey rnd a S).1.keyLength = a.keyLength ∧
      (GenerateDigest idKey rnd a S).1.saltLength = a.saltLength ∧
      (∀ (rnd1 : RandSource) (a1 : Argon2Digest), rnd1.failure = none →
        a1.iterations = a.iterations → a1.memory = a.memory → a1.threads = a.threads →
        a1.keyLength = a.keyLength → a1.saltLength = a.saltLength →
        (∀ i, i < a.saltLength → rnd1.stream i = rnd.stream i) →
        (GenerateDigest idKey rnd1 a1 S).1 = (GenerateDigest idKey rnd a S).1) := by
  have hrnd := (GenerateDigest_error_none_iff idKey rnd a S).mp hgen
  rw [GenerateDigest_success idKey rnd a S hrnd]
  refine ⟨rfl, by simp, rfl, rfl, rfl, rfl, rfl, rfl, ?_⟩
  intro rnd1 a1 hrnd1 hi hm ht hk hs hstream
  rw [GenerateDigest_success idKey rnd1 a1 S hrnd1]
  have hsalt : (List.range a.saltLength).map rnd1.stream =
      (List.range a.saltLength).map rnd.stream := by
    apply List.map_congr_left
    intro i hi
    exact hstream i (List.mem_range.mp hi)
  simp only [hi, hm, ht, hk, hs, hsalt]

/-- C14 at the sample collaborators, the default record and the secret `test`. -/
theorem GenerateDigest_effect_witness :
    (GenerateDigest sampleIDKey sampleRand New [116, 101, 115, 116]).1.Salt.length = 16 ∧
      (GenerateDigest sampleIDKey sampleRand New [116, 101, 115, 116]).1.iterations = 3 :=
  ⟨(GenerateDigest_effect sampleIDKey sampleRand New [116, 101, 115, 116] (by decide)).2.1,
    (GenerateDigest_effect sampleIDKey sampleRand New [116, 101, 115, 116] (by decide)).2.2.2.1⟩

/-- C15: `GenerateDigest` returns an error exactly when the random source fails;
it then returns that error, leaves the record as it was (salt and digest
included) and does not depend on the primitive; so after every call either no
error is returned or the record is unchanged. -/
theorem GenerateDigest_fails_iff (idKey : IDKeyFn) (rnd : RandSource) (a : Argon2Digest)
    (S : List Byte) :
    ((GenerateDigest idKey rnd a S).2 ≠ none ↔ rnd.failure ≠ none) ∧
      (∀ code, rnd.failure = some code →
        (GenerateDigest idKey rnd a S).2 = some (.randomSource code) ∧
        (GenerateDigest idKey rnd a S).1 = a ∧
        ∀ idKey1 : IDKeyFn, GenerateDigest idKey1 rnd a S = GenerateDigest idKey rnd a S) ∧
      ((GenerateDigest idKey rnd a S).2 = none ∨ (GenerateDigest idKey rnd a S).1 = a) := by
  refine ⟨not_congr (GenerateDigest_error_none_iff idKey rnd a S), ?_, ?_⟩
  · intro code hf
    rw [GenerateDigest_failure idKey rnd a S code hf]
    refine ⟨rfl, rfl, ?_⟩
    intro idKey1
    rw [GenerateDigest_failure idKey1 rnd a S code hf]
  · cases hf : rnd.failure with
    | none =>
      left
      rw [GenerateDigest_success idKey rnd a S hf]
    | some code =>
      right
      rw [GenerateDigest_failure idKey rnd a S code hf]

/-- C16: `New()` returns the record with iterations 3, memory 32768, threads 4,
`keyLength` 32, `saltLength` 16 and empty salt and digest. -/
theorem New_defaults :
    New.iterations = 3 ∧ New.memory = 32768 ∧ New.threads = 4 ∧ New.keyLength = 32 ∧
      New.saltLength = 16 ∧ New.Salt = [] ∧ New.Digest = [] ∧
      New = { iterations := 3, memory := 32768, threads := 4, keyLength := 32,
              saltLength := 16, Digest := [], Salt := [] } :=
  ⟨rfl, rfl, rfl, rfl, rfl, rfl, rfl, rfl⟩

/-! ## The segments that decide the outcome of decoding -/

/-- C18: two inputs of six segments that agree on the third to sixth segment
(version, parameters, salt, digest) have the same outcome of `NewFromEncoded`,
whatever their first two segments are. -/
theorem first_segments_ignored (s t a0 a1 b0 b1 s2 s3 s4 s5 : GoString)
    (hs : Split dollar s = [a0, a1, s2, s3, s4, s5])
    (ht : Split dollar t = [b0, b1, s2, s3, s4, s5]) :
    NewFromEncoded s = NewFromEncoded t := by
  rw [NewFromEncoded, NewFromEncoded, hs, ht]
  simp only [List.length_cons, List.length_nil, List.getD_cons_succ, List.getD_cons_zero]

/-- C18 at a text whose first two segments are `x` and `bcrypt`. -/
theorem first_segments_ignored_witness :
    NewFromEncoded (str "$argon2id$v=19$m=1,t=2,p=3$AAAA$AAAA") =
      NewFromEncoded (str "x$bcrypt$v=19$m=1,t=2,p=3$AAAA$AAAA") :=
  first_segments_ignored (str "$argon2id$v=19$m=1,t=2,p=3$AAAA$AAAA")
    (str "x$bcrypt$v=19$m=1,t=2,p=3$AAAA$AAAA") [] (str "argon2id") (str "x") (str "bcrypt")
    (str "v=19") (str "m=1,t=2,p=3") (str "AAAA") (str "AAAA") (by decide) (by decide)

/-! ## A record left by a failed salt generation -/

/-- C19: when the random source fails, `NewFromBytes` and `NewFromString` still
return a record: the default record, with empty salt and digest. The digest
re-derived for any candidate has 32 bytes (the primitive returning `keyLen`
bytes) while the stored digest has none, so `Compare` is false for every
candidate. -/
theorem failed_generation_fails_closed (idKey : IDKeyFn) (rnd : RandSource) (S : List Byte)
    (c : GoString) (code : Nat) (hprim : IDKeyLength idKey) (hfail : rnd.failure = some code) :
    (GenerateDigest idKey rnd New S).2 = some (.randomSource code) ∧
      NewFromBytes idKey rnd S = New ∧ NewFromString idKey rnd S = New ∧
      (NewFromBytes idKey rnd S).Salt = [] ∧ (NewFromBytes idKey rnd S).Digest = [] ∧
      (idKey (toBytes c) New.Salt New.iterations New.memory New.threads New.keyLength).length
        = 32 ∧
      (Compare idKey (NewFromBytes idKey rnd S) c).1 = false ∧
      (Compare idKey (NewFromString idKey rnd S) c).1 = false := by
  have hbytes : NewFromBytes idKey rnd S = New := by
    have hdef : NewFromBytes idKey rnd S = (GenerateDigest idKey rnd New S).1 := rfl
    rw [hdef, GenerateDigest_failure idKey rnd New S code hfail]
  have hstring : NewFromString idKey rnd S = New := hbytes
  have hlen : (idKey (toBytes c) New.Salt New.iterations New.memory New.threads
      New.keyLength).length = 32 := hprim _ _ _ _ _ _
  have hcmp : (Compare idKey New c).1 = false := by
    rw [← Bool.not_eq_true, Compare, CompareBytes_iff]
    intro h
    rw [← h] at hlen
    exact absurd hlen (by decide)
  refine ⟨?_, hbytes, hstring, ?_, ?_, hlen, ?_, ?_⟩
  · rw [GenerateDigest_failure idKey rnd New S code hfail]
  · rw [hbytes]; rfl
  · rw [hbytes]; rfl
  · rw [hbytes]; exact hcmp
  · rw [hstring]; exact hcmp

/-- C19 at the sample primitive and a failing random source. -/
theorem failed_generation_fails_closed_witness :
    NewFromBytes sampleIDKey failingRand (str "test") = New ∧
      (Compare sampleIDKey (NewFromBytes sampleIDKey failingRand (str "test")) (str "test")).1
        = false :=
  ⟨(failed_generation_fails_closed sampleIDKey failingRand (str "test") (str "test") 1
      sampleIDKey_length rfl).2.1,
    (failed_generation_fails_closed sampleIDKey failingRand (str "test") (str "test") 1
      sampleIDKey_length rfl).2.2.2.2.2.2.1⟩

end Argon2
